import Mathlib

/-!
Verification development for the SVSM VSL frontend (lexer, parser, evaluator,
built-ins, system converter). The Rust sources are shallowly embedded:
machine floats (`f64` wrapped in `OrderedFloat`) are modelled as `ℚ`,
`Rc<str>` / `String` / `PathBuf` as `String`, `BTreeMap` as association
lists with replace-on-insert, panics as an error constructor carrying the
panic message, and unbounded loops take an explicit fuel argument.
-/

namespace Svsm

/-- Truncation toward zero of a rational, mirroring Rust `f64::trunc`
(on a normalized rational this is T-division of the numerator by the
denominator). -/
def ratTrunc (q : ℚ) : ℤ :=
  q.num.tdiv q.den

/-- The fractional part in Rust `f64::fract` semantics
(`self - self.trunc()`), computed on the numerator so that it reduces in
the kernel: `(q.num - trunc * q.den) / q.den = q - trunc`. -/
def ratFract (q : ℚ) : ℚ :=
  mkRat (q.num - ratTrunc q * q.den) q.den

/-- `ratFract` agrees with the subtraction `q - trunc q` it models. -/
theorem ratFract_eq_sub (q : ℚ) : ratFract q = q - ratTrunc q := by
  rw [ratFract, Rat.mkRat_eq_div]
  push_cast
  rw [sub_div, Rat.num_div_den, mul_div_assoc, div_self (by exact_mod_cast q.den_ne_zero)]
  ring

/-- Rust `as usize` on a float: truncate toward zero, saturating at 0 below. -/
def f64AsUsize (q : ℚ) : Nat :=
  (ratTrunc q).toNat

/-- Decimal digits of the fractional remainder `r / den` (with
`0 ≤ r < den`), fuel-bounded; extraction over the integer remainder so
that it reduces in the kernel. -/
def fracDigitsInt : Nat → ℤ → ℤ → String
  | 0, _, _ => ""
  | fuel + 1, r, den =>
    if r = 0 then ""
    else
      let d : ℤ := (r * 10).tdiv den
      toString d ++ fracDigitsInt fuel (r * 10 - d * den) den

/-- Display of a nonnegative rational as a terminating decimal. -/
def ratToStringNonneg (q : ℚ) : String :=
  let t := ratTrunc q
  let r := q.num - t * q.den
  if r = 0 then toString t
  else toString t ++ "." ++ fracDigitsInt 30 r q.den

/-- Display of a number, mirroring `OrderedFloat<f64>::to_string` on the
terminating decimal values produced by the lexer (`1.0` prints as `1`,
`1.5` prints as `1.5`; the sign of a normalized rational is the sign of
its numerator). -/
def ratToString (q : ℚ) : String :=
  if 0 ≤ q.num then ratToStringNonneg q
  else "-" ++ ratToStringNonneg (-q)

/-- `parser::NumberExpr`: a wrapper around the ordered float. -/
structure NumberExpr where
  num : ℚ
deriving DecidableEq, Repr

/-- `NumberExpr::from_number`. -/
def NumberExpr.from_number (n : ℚ) : NumberExpr := ⟨n⟩

/-- `NumberExpr::to_string`. -/
def NumberExpr.toStr (n : NumberExpr) : String := ratToString n.num

/-- `lex::Token`. -/
inductive Token where
  | string (s : String)
  | boolean (b : Bool)
  | number (n : ℚ)
  | symbol (s : String)
  | semicolon
  | comma
  | openBrace
  | closeBrace
  | openBracket
  | closeBracket
  | openParen
  | closeParen
  | equal
  | dot
  | slash
  | whitespace
  | eof
  | discard
deriving DecidableEq, Repr

/-- Names of the built-in functions in `interpreter/builtins.rs`; source
`Expr::Builtin` stores a function pointer, which we model by this name
together with the interpretation `runBuiltin` below. -/
inductive BuiltinName where
  | print
  | add
  | github_repo
  | voidpackages_repo
  | join
  | replace
  | use_file
  | remove
  | todo_fn
deriving DecidableEq, Repr

/-- Names of built-in macros (`builtins::todo_macro` is the only one). -/
inductive MacroName where
  | todoMacro
deriving DecidableEq, Repr

mutual
/-- `parser::Expr` — the shared AST/value type. -/
inductive Expr where
  | string (s : String)
  | number (n : NumberExpr)
  | boolean (b : Bool)
  | symbol (s : String)
  | path (p : String)
  | varDecl (name : Expr) (value : Expr)
  | gitHubRemote (user : String) (repo : String) (branch : Option String)
  | list (items : List Expr)
  | listRef (container : Expr) (index : NumberExpr)
  | map (entries : List (Expr × Expr))
  | mapRef (container : Expr) (attr : Expr)
  | action (a : SvsmAction)
  | fnCall (name : String) (args : List Expr)
  | fnResult (function : Callable) (args : List Expr) (env : Env)
  | builtin (f : BuiltinName)
  | macroFn (f : MacroName)

/-- `parser::Callable`. -/
inductive Callable where
  | builtin (f : BuiltinName)
  | macroFn (f : MacroName)

/-- `interpreter::Env`: a frame of variables (source field `variables`,
a `BTreeMap<Rc<str>, Expr>`) plus an optional parent. -/
inductive Env where
  | mk (vars : List (String × Expr)) (parent : Option Env)

/-- `actions::Action`. -/
inductive SvsmAction where
  | file (a : FileSystemAction)
  | system (a : SystemAction)

/-- `actions::SystemAction` (package-repository payloads elided to names,
they contain no `Expr`). -/
inductive SystemAction where
  | addPackage (package_name : String)
  | removePackage (package_name : String)
  | addRepository
  | removeRepository
  | configurePackage (package_name : String) (configuration_actions : List SvsmAction)

/-- `actions::FileSystemAction`. -/
inductive FileSystemAction where
  | moveFile (original_location final_location : Expr) (is_dir : Bool)
  | copyFile (original_location final_location : Expr) (is_recursive : Bool)
  | renameFile (original_name final_name : Expr)
  | addToFile (original_file content_to_add : Expr)
  | removeFile (file_location : Expr) (is_dir : Bool)
  | createFile (file_location : Expr) (contents : Option Expr) (is_dir : Bool)
end

/-- The variables of an environment frame. -/
def Env.vars : Env → List (String × Expr)
  | .mk vs _ => vs

/-- The parent of an environment frame. -/
def Env.parent : Env → Option Env
  | .mk _ p => p

/-- `Env::new`. -/
def Env.new : Env := .mk [] none

mutual
/-- Structural equality on `Expr`, mirroring the derived `PartialEq`/`Ord`
(under the `OrderedFloat` total order, equality of numbers is equality of
the modelled rationals). -/
def Expr.beq : Expr → Expr → Bool
  | .string a, .string b => a == b
  | .number a, .number b => a == b
  | .boolean a, .boolean b => a == b
  | .symbol a, .symbol b => a == b
  | .path a, .path b => a == b
  | .varDecl n v, .varDecl n' v' => Expr.beq n n' && Expr.beq v v'
  | .gitHubRemote u r b, .gitHubRemote u' r' b' => u == u' && r == r' && b == b'
  | .list xs, .list ys => beqExprList xs ys
  | .listRef c i, .listRef c' i' => Expr.beq c c' && i == i'
  | .map xs, .map ys => beqEntryList xs ys
  | .mapRef c a, .mapRef c' a' => Expr.beq c c' && Expr.beq a a'
  | .action a, .action b => beqAction a b
  | .fnCall n a, .fnCall n' a' => n == n' && beqExprList a a'
  | .fnResult f a e, .fnResult f' a' e' =>
      beqCallable f f' && beqExprList a a' && Env.beq e e'
  | .builtin f, .builtin f' => f == f'
  | .macroFn f, .macroFn f' => f == f'
  | _, _ => false
termination_by structural a _ => a

/-- Equality of expression lists. -/
def beqExprList : List Expr → List Expr → Bool
  | [], [] => true
  | x :: xs, y :: ys => Expr.beq x y && beqExprList xs ys
  | _, _ => false
termination_by structural a _ => a

/-- Equality of map entry lists. -/
def beqEntryList : List (Expr × Expr) → List (Expr × Expr) → Bool
  | [], [] => true
  | (k, v) :: xs, (k', v') :: ys => Expr.beq k k' && Expr.beq v v' && beqEntryList xs ys
  | _, _ => false
termination_by structural a _ => a

/-- Equality of callables. -/
def beqCallable : Callable → Callable → Bool
  | .builtin f, .builtin f' => f == f'
  | .macroFn f, .macroFn f' => f == f'
  | _, _ => false

/-- Equality of environments. -/
def Env.beq : Env → Env → Bool
  | .mk vs p, .mk vs' p' => beqVarList vs vs' && beqOptEnv p p'
termination_by structural a _ => a

/-- Equality of variable lists. -/
def beqVarList : List (String × Expr) → List (String × Expr) → Bool
  | [], [] => true
  | (n, v) :: xs, (n', v') :: ys => n == n' && Expr.beq v v' && beqVarList xs ys
  | _, _ => false
termination_by structural a _ => a

/-- Equality of optional parent environments. -/
def beqOptEnv : Option Env → Option Env → Bool
  | none, none => true
  | some e, some e' => Env.beq e e'
  | _, _ => false
termination_by structural a _ => a

/-- Equality of actions. -/
def beqAction : SvsmAction → SvsmAction → Bool
  | .file a, .file b => beqFsAction a b
  | .system a, .system b => beqSysAction a b
  | _, _ => false
termination_by structural a _ => a

/-- Equality of system actions. -/
def beqSysAction : SystemAction → SystemAction → Bool
  | .addPackage a, .addPackage b => a == b
  | .removePackage a, .removePackage b => a == b
  | .addRepository, .addRepository => true
  | .removeRepository, .removeRepository => true
  | .configurePackage a xs, .configurePackage b ys => a == b && beqActionList xs ys
  | _, _ => false
termination_by structural a _ => a

/-- Equality of action lists. -/
def beqActionList : List SvsmAction → List SvsmAction → Bool
  | [], [] => true
  | x :: xs, y :: ys => beqAction x y && beqActionList xs ys
  | _, _ => false
termination_by structural a _ => a

/-- Equality of filesystem actions. -/
def beqFsAction : FileSystemAction → FileSystemAction → Bool
  | .moveFile a b c, .moveFile a' b' c' => Expr.beq a a' && Expr.beq b b' && c == c'
  | .copyFile a b c, .copyFile a' b' c' => Expr.beq a a' && Expr.beq b b' && c == c'
  | .renameFile a b, .renameFile a' b' => Expr.beq a a' && Expr.beq b b'
  | .addToFile a b, .addToFile a' b' => Expr.beq a a' && Expr.beq b b'
  | .removeFile a c, .removeFile a' c' => Expr.beq a a' && c == c'
  | .createFile a c d, .createFile a' c' d' =>
      Expr.beq a a' && beqOptExpr c c' && d == d'
  | _, _ => false
termination_by structural a _ => a

/-- Equality of optional expressions. -/
def beqOptExpr : Option Expr → Option Expr → Bool
  | none, none => true
  | some a, some b => Expr.beq a b
  | _, _ => false
termination_by structural a _ => a
end

/-- Lookup in a `BTreeMap<Rc<str>, Expr>` modelled as an association list. -/
def assocGet (vs : List (String × Expr)) (name : String) : Option Expr :=
  match vs with
  | [] => none
  | (n, v) :: rest => if n == name then some v else assocGet rest name

/-- `BTreeMap<Rc<str>, Expr>::insert`: replace the binding if the key is
present, otherwise add it. -/
def assocInsert (vs : List (String × Expr)) (name : String) (value : Expr) :
    List (String × Expr) :=
  match vs with
  | [] => [(name, value)]
  | (n, v) :: rest =>
    if n == name then (n, value) :: rest
    else (n, v) :: assocInsert rest name value

/-- `BTreeMap<Rc<str>, Expr>::contains_key`. -/
def assocContains (vs : List (String × Expr)) (name : String) : Bool :=
  match vs with
  | [] => false
  | (n, _) :: rest => n == name || assocContains rest name

/-- Lookup in a `BTreeMap<Expr, Expr>` (map values) under structural
equality of keys (`get` / `get_key_value`). -/
def mapGet (m : List (Expr × Expr)) (key : Expr) : Option Expr :=
  match m with
  | [] => none
  | (k, v) :: rest => if Expr.beq k key then some v else mapGet rest key

/-- `BTreeMap<Expr, Expr>::insert`. -/
def mapInsert (m : List (Expr × Expr)) (key value : Expr) : List (Expr × Expr) :=
  match m with
  | [] => [(key, value)]
  | (k, v) :: rest =>
    if Expr.beq k key then (k, value) :: rest
    else (k, v) :: mapInsert rest key value

/-- `BTreeMap<Expr, Expr>::contains_key`. -/
def mapContains (m : List (Expr × Expr)) (key : Expr) : Bool :=
  match m with
  | [] => false
  | (k, _) :: rest => Expr.beq k key || mapContains rest key

/-- `Env::get_variable`: look in the current frame; on a miss, delegate to
the parent via `find_variable` (whose miss is a panic, modelled as
`.error`), exactly as in the source; with no parent return `none`. The
`find_variable` call on the parent is inlined (it is
`match get_variable with Some t => t | None => panic`). -/
def Env.getVariable : Env → String → Except String (Option Expr)
  | .mk vs parent, name =>
    match assocGet vs name with
    | some v => .ok (some v)
    | none =>
      match parent with
      | some p =>
        match p.getVariable name with
        | .ok (some t) => .ok (some t)
        | .ok none => .error ("Variable with name " ++ name ++ " not found!")
        | .error msg => .error msg
      | none => .ok none
termination_by structural e _ => e

/-- `Env::find_variable`: as `get_variable`, panicking when absent. -/
def Env.findVariable (e : Env) (name : String) : Except String Expr :=
  match e.getVariable name with
  | .ok (some t) => .ok t
  | .ok none => .error ("Variable with name " ++ name ++ " not found!")
  | .error msg => .error msg

/-- `Env::find_variable_with_expr`: the expression must be a symbol. -/
def Env.findVariableWithExpr (e : Env) (expr : Expr) : Except String Expr :=
  match expr with
  | .symbol sym => e.findVariable sym
  | _ => .error "Variable must be a symbol!"

/-- `Env::add_variable`. A `Symbol` target inserts into the current frame.
A `MapRef(Symbol m, attr)` target fetches `m` (walking parents), requires
it to be a `Map`, inserts `(attr, value)` into that map, and rebinds `m`
in the current frame. Every other shape panics. -/
def Env.addVariable (e : Env) (name : Expr) (value : Expr) : Except String Env :=
  match name with
  | .symbol sym => .ok (.mk (assocInsert e.vars sym value) e.parent)
  | .mapRef nameE attr =>
    match nameE with
    | .symbol n =>
      match e.getVariable n with
      | .ok (some m) =>
        match m with
        | .map entries =>
          .ok (.mk (assocInsert e.vars n (.map (mapInsert entries attr value))) e.parent)
        | _ => .error "You cant do attr access on a non-map type!"
      | .ok none => .error ("Map " ++ n ++ " does not exist in env!")
      | .error msg => .error msg
    | _ => .error "Variable must be symbol!"
  | _ => .error "Variable must be a symbol!"

/-- `Env::add_if_not_exists`: insert only when the name is absent from the
current frame. -/
def Env.addIfNotExists (e : Env) (name : String) (value : Expr) :
    Except String Env :=
  if !assocContains e.vars name then e.addVariable (.symbol name) value
  else .ok e

/-- `Expr::symbol_from_str`. -/
def Expr.symbol_from_str (s : String) : Expr := .symbol s

/-- `Expr::string_from_str`. -/
def Expr.string_from_str (s : String) : Expr := .string s

/-- `Expr::to_string` — only atoms convert; everything else panics. -/
def Expr.toStr : Expr → Except String String
  | .string s => .ok s
  | .number n => .ok n.toStr
  | .boolean b => .ok (if b then "true" else "false")
  | .symbol s => .ok s
  | .path p => .ok p
  | _ => .error "Unable to convert to string."

/-- `Expr::extract_str` — strings and symbols only. -/
def Expr.extract_str : Expr → Except String String
  | .string s => .ok s
  | .symbol s => .ok s
  | _ => .error "Cant extract str!"

/-- `Expr::get_map_value`: `Map` lookup, `none` on any other shape. -/
def Expr.get_map_value : Expr → Expr → Option Expr
  | .map m, key => mapGet m key
  | _, _ => none

/-- Result of a fueled computation: a panic message, fuel exhaustion, or a
value. -/
inductive RRes (α : Type) where
  | fatal (msg : String)
  | outOfFuel
  | ok (a : α)
deriving Repr

/-- Result of `interpreter::eval`: the optional produced value together
with the (possibly mutated) ambient environment. -/
abbrev EvalRes := RRes (Option Expr × Env)

/-- Stringify a list of expressions for `join` (`list.iter().map(to_string)`);
a non-atom element panics. -/
def toStringList : List Expr → Except String (List String)
  | [] => .ok []
  | e :: rest =>
    match e.toStr with
    | .ok s =>
      match toStringList rest with
      | .ok ss => .ok (s :: ss)
      | .error m => .error m
    | .error m => .error m

/-- The scan loop of Rust `str::replace` for a nonempty pattern: replace
every non-overlapping occurrence left to right. Each step consumes at
least one character, so the fuel `s.length + 1` used by `rustReplace`
never runs out. -/
def rustReplaceLoop (pat rep : List Char) : Nat → List Char → List Char
  | 0, rest => rest
  | _ + 1, [] => []
  | fuel + 1, c :: rest =>
    if pat.isPrefixOf (c :: rest) then
      rep ++ rustReplaceLoop pat rep fuel ((c :: rest).drop pat.length)
    else c :: rustReplaceLoop pat rep fuel rest

/-- Rust `str::replace(self, from, to)`: all non-overlapping occurrences
of `from` are replaced by `to`, left to right; with an empty `from` the
replacement is inserted at every character boundary. -/
def rustReplace (s pattern replacement : String) : String :=
  if pattern.isEmpty then
    replacement ++
      String.mk (s.toList.flatMap (fun c => c :: replacement.toList))
  else
    String.mk (rustReplaceLoop pattern.toList replacement.toList
      (s.toList.length + 1) s.toList)

/-- Resolve a string-ish argument of `join`/`replace`: a string, or a symbol
bound to a string; anything else panics (the source repeats the literal
message of the first argument for every position). -/
def strArg (e : Expr) (env : Env) : Except String String :=
  match e with
  | .string s => .ok s
  | .symbol sym =>
    match env.findVariable sym with
    | .ok (.string s) => .ok s
    | .ok _ => .error "First argument must be a string!"
    | .error m => .error m
  | _ => .error "First argument must be a string!"

mutual
/-- `interpreter::eval`: evaluate one expression against a mutable
environment. `disable_lazy` immediately forces the thunk built by a
`FnCall`. The fuel argument bounds the recursion through thunk bodies. -/
def eval : Nat → Expr → Env → Bool → EvalRes
  | 0, _, _, _ => .outOfFuel
  | fuel + 1, input, env, disable_lazy =>
    match input with
    | .varDecl name value =>
      match env.addVariable name value with
      | .ok env' => .ok (some value, env')
      | .error m => .fatal m
    | .symbol sym =>
      match env.findVariable sym with
      | .ok t => .ok (some t, env)
      | .error m => .fatal m
    | .listRef sym index =>
      match env.findVariableWithExpr sym with
      | .ok (.list l) =>
        match l.get? (f64AsUsize index.num) with
        | some t => .ok (some t, env)
        | none => .fatal "Invalid index"
      | .ok _ => .fatal "Unable to list access into a non-list!"
      | .error m => .fatal m
    | .mapRef sym attr =>
      match env.findVariableWithExpr sym with
      | .ok (.map m) =>
        match mapGet m attr with
        | none => .fatal "Map Attr not found!"
        | some t => .ok (some t, env)
      | .ok _ => .fatal "Unable to list access into a non-list!"
      | .error m => .fatal m
    | .fnResult f args cenv =>
      match f with
      | .builtin b =>
        match runBuiltin fuel b args cenv with
        | .ok (v, _) => .ok (v, env)
        | .fatal m => .fatal m
        | .outOfFuel => .outOfFuel
      | .macroFn _ => .fatal "not yet implemented"
    | .fnCall name args =>
      match env.findVariable name with
      | .ok (.builtin cb) =>
        if disable_lazy then
          eval fuel (.fnResult (.builtin cb) args env) env disable_lazy
        else
          .ok (some (.fnResult (.builtin cb) args env), env)
      | .ok (.macroFn _) => .fatal "Macros not implemented"
      | .ok (.fnResult _ _ _) => .fatal "FnResult attempted to be called!"
      | .ok _ => .fatal "Attempted to call a non-function!"
      | .error m => .fatal m
    | _ => .ok (some input, env)

/-- Run the named built-in on `(args, env)`, returning its optional result
and the mutated environment (the caller of a thunk discards the latter,
since the source mutates a clone). -/
def runBuiltin : Nat → BuiltinName → List Expr → Env → EvalRes
  | 0, _, _, _ => .outOfFuel
  | fuel + 1, b, args, env =>
    match b with
    | .print =>
      match printLoop fuel args env with
      | .ok _ => .ok (none, env)
      | .fatal m => .fatal m
      | .outOfFuel => .outOfFuel
    | .add =>
      match addLoop fuel args env 0 with
      | .ok (total, env') => .ok (some (.number ⟨total⟩), env')
      | .fatal m => .fatal m
      | .outOfFuel => .outOfFuel
    | .github_repo =>
      match args with
      | a0 :: a1 :: rest =>
        match resolveGh fuel a0 env with
        | .ok (some user, env1) =>
          match resolveGh fuel a1 env1 with
          | .ok (some repo, env2) =>
            match rest.head? with
            | some t =>
              match resolveGh fuel t env2 with
              | .ok (branch, env3) => .ok (some (.gitHubRemote user repo branch), env3)
              | .fatal m => .fatal m
              | .outOfFuel => .outOfFuel
            | none => .ok (some (.gitHubRemote user repo none), env2)
          | .ok (none, _) => .fatal "called Option::unwrap on a None value"
          | .fatal m => .fatal m
          | .outOfFuel => .outOfFuel
        | .ok (none, _) => .fatal "called Option::unwrap on a None value"
        | .fatal m => .fatal m
        | .outOfFuel => .outOfFuel
      | _ => .fatal "Argument repo not provided to fn github_repo!"
    | .voidpackages_repo =>
      match args with
      | a0 :: _ =>
        match env.addIfNotExists "VOID_PACKAGES_REPO_NAME" (.string "void-packages") with
        | .ok env' =>
          runBuiltin fuel .github_repo [a0, .symbol "VOID_PACKAGES_REPO_NAME"] env'
        | .error m => .fatal m
      | [] => .fatal "Argument user not provided to voidpackages-repo!"
    | .join =>
      match args with
      | a0 :: a1 :: _ =>
        match strArg a0 env with
        | .ok joiner =>
          match a1 with
          | .list l =>
            match toStringList l with
            | .ok parts => .ok (some (.string (String.intercalate joiner parts)), env)
            | .error m => .fatal m
          | _ => .fatal "Second argument must be a list!"
        | .error m => .fatal m
      | _ => .fatal "Not enough arguments passed to join!"
    | .replace =>
      match args with
      | a0 :: a1 :: a2 :: _ =>
        match strArg a0 env with
        | .ok original =>
          match strArg a1 env with
          | .ok replacement =>
            match strArg a2 env with
            | .ok str => .ok (some (.string (rustReplace str original replacement)), env)
            | .error m => .fatal m
          | .error m => .fatal m
        | .error m => .fatal m
      | _ => .fatal "Not enough arguments passed to replace!"
    | .use_file => runBuiltin fuel .todo_fn args env
    | .remove => runBuiltin fuel .todo_fn args env
    | .todo_fn => .fatal "not yet implemented"

/-- The argument loop of `builtins::print`. -/
def printLoop : Nat → List Expr → Env → RRes Unit
  | 0, _, _ => .outOfFuel
  | fuel + 1, args, env =>
    match args with
    | [] => .ok ()
    | a :: rest =>
      match resolvePrint fuel a env with
      | .ok _ => printLoop fuel rest env
      | .fatal m => .fatal m
      | .outOfFuel => .outOfFuel

/-- `resolve_expr` inside `builtins::print` (stdout writes elided; the
recursion and the panics are kept). -/
def resolvePrint : Nat → Expr → Env → RRes Unit
  | 0, _, _ => .outOfFuel
  | fuel + 1, arg, env =>
    match arg with
    | .symbol val =>
      match env.findVariable val with
      | .ok v => resolvePrint fuel v env
      | .error m => .fatal m
    | .string _ => .ok ()
    | .boolean _ => .ok ()
    | .number _ => .ok ()
    | .path _ => .ok ()
    | .list _ => .ok ()
    | .map m => resolvePrintEntries fuel m env
    | .gitHubRemote _ _ _ => .ok ()
    | .listRef sym index =>
      match env.findVariableWithExpr sym with
      | .ok (.list l) =>
        match l.get? (f64AsUsize index.num) with
        | some e => resolvePrint fuel e env
        | none => .fatal "Index exceeds bounds of list"
      | .ok _ => .fatal "Can not index into a non list!"
      | .error m => .fatal m
    | .mapRef sym attr =>
      match env.findVariableWithExpr sym with
      | .ok (.map m) =>
        match mapGet m attr with
        | none => .fatal "Attr not found in map!"
        | some v => resolvePrint fuel v env
      | .ok _ => .fatal "Attr not valid for non-map!"
      | .error m => .fatal m
    | .fnResult f fargs cenv =>
      match f with
      | .builtin b =>
        match runBuiltin fuel b fargs cenv with
        | .ok (none, _) => .ok ()
        | .ok (some e, _) => resolvePrint fuel e env
        | .fatal m => .fatal m
        | .outOfFuel => .outOfFuel
      | .macroFn _ => .fatal "not yet implemented"
    | .fnCall _ _ => .ok ()
    | .builtin _ => .ok ()
    | .varDecl _ _ => .fatal "Variable declaration not valid in print"
    | .macroFn _ => .fatal "Can not resolve macro!"
    | .action _ => .fatal "Unhandled Expression: External Action!"

/-- Entry iteration of the `Map` case of print's `resolve_expr`. -/
def resolvePrintEntries : Nat → List (Expr × Expr) → Env → RRes Unit
  | 0, _, _ => .outOfFuel
  | fuel + 1, entries, env =>
    match entries with
    | [] => .ok ()
    | (k, v) :: rest =>
      match resolvePrint fuel k env with
      | .ok _ =>
        match resolvePrint fuel v env with
        | .ok _ => resolvePrintEntries fuel rest env
        | .fatal m => .fatal m
        | .outOfFuel => .outOfFuel
      | .fatal m => .fatal m
      | .outOfFuel => .outOfFuel

/-- The argument loop of `builtins::add` (testing-only built-in). -/
def addLoop : Nat → List Expr → Env → ℚ → RRes (ℚ × Env)
  | 0, _, _, _ => .outOfFuel
  | fuel + 1, args, env, total =>
    match args with
    | [] => .ok (total, env)
    | arg :: rest =>
      match eval fuel arg env false with
      | .ok (some (.number n), env') => addLoop fuel rest env' (total + n.num)
      | .ok _ => .fatal "Add only works on numbers!"
      | .fatal m => .fatal m
      | .outOfFuel => .outOfFuel

/-- `resolve_expr` inside `builtins::github_repo`: a string resolves to
itself, a symbol is evaluated (unwrap panics on `None`) and re-resolved,
anything else yields `None`. -/
def resolveGh : Nat → Expr → Env → RRes (Option String × Env)
  | 0, _, _ => .outOfFuel
  | fuel + 1, expr, env =>
    match expr with
    | .string s => .ok (some s, env)
    | .symbol _ =>
      match eval fuel expr env false with
      | .ok (some v, env') => resolveGh fuel v env'
      | .ok (none, _) => .fatal "called Option::unwrap on a None value"
      | .fatal m => .fatal m
      | .outOfFuel => .outOfFuel
    | _ => .ok (none, env)
end

/-- `Env::add_variable` specialized to its `Symbol` arm (the only arm
`create_standard_env` exercises; on a symbol it cannot fail). -/
def Env.addVarSymbol (e : Env) (name : String) (value : Expr) : Env :=
  .mk (assocInsert e.vars name value) e.parent

/-- `Interpreter::create_standard_env`: the bindings installed into the
interpreter environment, in source order. -/
def createStandardEnv : Env :=
  ((((((((((Env.new.addVarSymbol "system" (.map [])
    ).addVarSymbol "print" (.builtin .print)
    ).addVarSymbol "gh-r" (.builtin .github_repo)
    ).addVarSymbol "vp-r" (.builtin .voidpackages_repo)
    ).addVarSymbol "github-repo" (.builtin .github_repo)
    ).addVarSymbol "voidpackages-repo" (.builtin .voidpackages_repo)
    ).addVarSymbol "home" (.builtin .todo_fn)
    ).addVarSymbol "replace" (.builtin .todo_fn)
    ).addVarSymbol "use_file" (.builtin .todo_fn)
    ).addVarSymbol "join" (.builtin .todo_fn))

/-! ## Lexer (`lex.rs`) -/

/-- The NUL character the lexer uses as its end-of-input sentinel. -/
def nulChar : Char := '\x00'

/-- A character matching the `WHITESPACE` regex `\s`. -/
def wsChar (c : Char) : Bool :=
  c = ' ' || c = '\t' || c = '\n' || c = '\r' || c = '\x0b' || c = '\x0c'

/-- An ASCII digit (`char::is_ascii_digit`). -/
def isDigitChar (c : Char) : Bool := '0' ≤ c && c ≤ '9'

/-- A character allowed to start a symbol (`[A-Za-z_]`). -/
def symStartChar (c : Char) : Bool :=
  ('A' ≤ c && c ≤ 'Z') || ('a' ≤ c && c ≤ 'z') || c = '_'

/-- A character allowed inside a symbol (`[A-Za-z_0-9-]`). -/
def symChar (c : Char) : Bool :=
  symStartChar c || isDigitChar c || c = '-'

/-- No two consecutive dashes in the character list. -/
def noDoubleDash : List Char → Bool
  | [] => true
  | [_] => true
  | a :: b :: rest => !(a = '-' && b = '-') && noDoubleDash (b :: rest)

/-- The language of the `VALID_SYMBOL` regex
`^[A-Za-z_]+(?:[A-Za-z_0-9]|[A-Za-z_0-9-][A-Za-z_0-9]+)*$`: a nonempty
string starting with a letter or underscore, containing only letters,
digits, underscores and dashes, with no two consecutive dashes and not
ending in a dash. -/
def validSymbol (s : String) : Bool :=
  match s.toList with
  | [] => false
  | c :: rest =>
    symStartChar c && rest.all symChar && noDoubleDash (c :: rest) &&
      (c :: rest).getLast? != some '-'

/-- The language of the number regex `^[0-9]+(?:\.[0-9]+)?$`. -/
def numRe (s : String) : Bool :=
  match s.toList.span isDigitChar with
  | (intPart, rest) =>
    !intPart.isEmpty &&
      (match rest with
       | [] => true
       | '.' :: frac => !frac.isEmpty && frac.all isDigitChar
       | _ => false)

/-- The value of digit characters read as a decimal natural number. -/
def digitsVal (cs : List Char) : Nat :=
  cs.foldl (fun a c => a * 10 + (c.toNat - 48)) 0

/-- `str::parse::<f64>()` on the digit-and-dot strings the number arm of
the lexer can collect: `D+`, `D+.` and `D+.D+` parse to their decimal
value, everything else (for example a string with two dots) is an error. -/
def rustParseF64 (s : String) : Option ℚ :=
  match s.toList.span isDigitChar with
  | (intPart, rest) =>
    if intPart.isEmpty then none
    else
      match rest with
      | [] => some (digitsVal intPart)
      | '.' :: frac =>
        if frac.all isDigitChar then
          some (mkRat (digitsVal intPart * 10 ^ frac.length + digitsVal frac)
            (10 ^ frac.length))
        else none
      | _ => none

/-- `lex::Lexer` state. -/
structure Lexer where
  discard_whitespace : Bool
  discard_eof : Bool
  input : List Char
  pos : Nat
  row : Nat
  col : Nat
  trow : Nat
  tcol : Nat
  tpos : Nat
deriving Repr

namespace Lexer

/-- `Lexer::new`. -/
def new (input : List Char) : Lexer :=
  { discard_whitespace := false, discard_eof := false, input, pos := 0,
    col := 1, row := 1, tcol := 1, trow := 1, tpos := 1 }

/-- `Lexer::from_string`. -/
def fromString (s : String) : Lexer := new s.toList

/-- `Lexer::toggle_whitespace`. -/
def toggleWhitespace (l : Lexer) : Lexer :=
  { l with discard_whitespace := !l.discard_whitespace }

/-- `Lexer::get_char`: current character, NUL past the end. -/
def getChar (l : Lexer) : Char :=
  if l.pos ≥ l.input.length then nulChar else l.input.getD l.pos nulChar

/-- `Lexer::peek`: next character, NUL past the end. -/
def peek (l : Lexer) : Char :=
  if l.pos + 1 ≥ l.input.length then nulChar else l.input.getD (l.pos + 1) nulChar

/-- `Lexer::advance`: step one character, tracking row and column (the row
advances when the new current character is a newline). -/
def advance (l : Lexer) : Lexer :=
  let l' := { l with pos := l.pos + 1, col := l.col + 1 }
  if l'.getChar = '\n' then { l' with row := l'.row + 1, col := 1 } else l'

/-- `Lexer::backup`: step back one character position (never below zero). -/
def backup (l : Lexer) : Lexer :=
  if l.pos > 0 then { l with pos := l.pos - 1 } else l

/-- The loop of `Lexer::collect_to`: gather characters until the pattern
matches the current one, then include that character. -/
def collectToLoop : Nat → (Char → Bool) → Lexer → List Char → RRes (List Char × Lexer)
  | 0, _, _, _ => .outOfFuel
  | fuel + 1, p, st, acc =>
    if !p st.getChar && st.peek ≠ nulChar then
      collectToLoop fuel p st.advance (acc ++ [st.getChar])
    else .ok (acc ++ [st.getChar], st)

/-- `Lexer::collect_to`. -/
def collectTo (fuel : Nat) (p : Char → Bool) (st : Lexer) :
    RRes (List Char × Lexer) :=
  collectToLoop fuel p st.advance [st.getChar]

/-- `Lexer::advance_until`: advance while the peeked character neither
matches the pattern nor is NUL. -/
def advanceUntil : Nat → (Char → Bool) → Lexer → RRes Lexer
  | 0, _, _ => .outOfFuel
  | fuel + 1, p, st =>
    if !p st.peek && st.peek ≠ nulChar then advanceUntil fuel p st.advance
    else .ok st

/-- The loop of `Lexer::collect_while` with its three growth conditions. -/
def collectWhileLoop : Nat → (String → Bool) → Lexer → List Char →
    RRes (List Char × Lexer)
  | 0, _, _, _ => .outOfFuel
  | fuel + 1, p, st, token =>
    if p (String.mk [st.getChar]) && st.getChar ≠ nulChar then
      collectWhileLoop fuel p st.advance (token ++ [st.getChar])
    else if st.peek ≠ nulChar && p (String.mk (token ++ [st.getChar])) then
      collectWhileLoop fuel p st.advance (token ++ [st.getChar])
    else if st.peek ≠ nulChar && p (String.mk (token ++ [st.getChar, st.peek])) then
      collectWhileLoop fuel p st.advance (token ++ [st.getChar])
    else .ok (token, st)

/-- `Lexer::collect_while`. -/
def collectWhile (fuel : Nat) (p : String → Bool) (st : Lexer) :
    RRes (List Char × Lexer) :=
  collectWhileLoop fuel p st []

/-- The loop of the number arm of `Lexer::next_token`. -/
def numLoop : Nat → Lexer → String → RRes (String × Lexer)
  | 0, _, _ => .outOfFuel
  | fuel + 1, st, result =>
    if numRe result && st.getChar ≠ nulChar then
      let st1 := st.advance
      let result1 := result.push st1.getChar
      if st1.getChar = '.' then
        let st2 := st1.advance
        numLoop fuel st2 (result1.push st2.getChar)
      else numLoop fuel st1 result1
    else .ok (result, st)

/-- `Lexer::next_token`. Stdout/diagnostic side effects are elided; panic
messages are kept (with positions rendered into the message). -/
def nextToken : Nat → Lexer → RRes (Token × Lexer)
  | 0, _ => .outOfFuel
  | fuel + 1, st0 =>
    let st : Lexer := { st0 with tpos := st0.pos, tcol := st0.col, trow := st0.row }
    let c := st.getChar
    if c = '#' then
      match advanceUntil (st.input.length + 2) (fun ch => ch = '\n') st with
      | .ok st1 => .ok (Token.discard, st1.advance)
      | .fatal m => .fatal m
      | .outOfFuel => .outOfFuel
    else if c = '\'' then
      match collectTo (st.input.length + 2) (fun ch => ch = '\'') st with
      | .ok (result, st1) =>
        if result.getLast? ≠ some '\'' then
          .fatal ("String opened on line " ++ toString st.row ++ ", char " ++
            toString st.col ++ " not closed until end of file! String: " ++
            String.mk result)
        else .ok (Token.string (String.mk result), st1.advance)
      | .fatal m => .fatal m
      | .outOfFuel => .outOfFuel
    else if c = '"' then
      match collectTo (st.input.length + 2) (fun ch => ch = '"') st with
      | .ok (result, st1) =>
        if result.getLast? ≠ some '"' then
          .fatal ("String opened on line " ++ toString st.row ++ ", char " ++
            toString st.col ++ " not closed until end of file! String: " ++
            String.mk result)
        else .ok (Token.string (String.mk result), st1.advance)
      | .fatal m => .fatal m
      | .outOfFuel => .outOfFuel
    else if c = 't' then
      match collectWhile (st.input.length + 2) validSymbol st with
      | .ok (result, st1) =>
        if String.mk result = "true" then .ok (Token.boolean true, st1.advance)
        else .ok (Token.symbol (String.mk result), st1.backup.advance)
      | .fatal m => .fatal m
      | .outOfFuel => .outOfFuel
    else if c = 'f' then
      match collectWhile (st.input.length + 2) validSymbol st with
      | .ok (result, st1) =>
        if String.mk result = "false" then .ok (Token.boolean false, st1.advance)
        else .ok (Token.symbol (String.mk result), st1.backup.advance)
      | .fatal m => .fatal m
      | .outOfFuel => .outOfFuel
    else if isDigitChar c then
      match numLoop (st.input.length + 2) st (String.mk [c]) with
      | .ok (result, st1) =>
        let (result2, st2) :=
          if !numRe (String.mk [st1.getChar]) then (result.dropRight 1, st1.backup)
          else (result, st1)
        match rustParseF64 result2 with
        | some n => .ok (Token.number n, st2.advance)
        | none =>
          .fatal ("Internal Lexer Error :: Unable to parse number " ++ result2 ++
            " at line " ++ toString st2.row ++ ", col " ++ toString st2.col ++ "!")
      | .fatal m => .fatal m
      | .outOfFuel => .outOfFuel
    else if c = '{' then .ok (Token.openBrace, st.advance)
    else if c = '}' then .ok (Token.closeBrace, st.advance)
    else if c = '[' then .ok (Token.openBracket, st.advance)
    else if c = ']' then .ok (Token.closeBracket, st.advance)
    else if c = '(' then .ok (Token.openParen, st.advance)
    else if c = ')' then .ok (Token.closeParen, st.advance)
    else if c = ';' then .ok (Token.semicolon, st.advance)
    else if c = ',' then .ok (Token.comma, st.advance)
    else if c = '=' then .ok (Token.equal, st.advance)
    else if c = '.' then .ok (Token.dot, st.advance)
    else if c = '/' then .ok (Token.slash, st.advance)
    else if c = nulChar then
      if !st.discard_eof then .ok (Token.eof, st.advance)
      else .ok (Token.discard, st.advance)
    else if wsChar c then
      if !st.discard_whitespace then .ok (Token.whitespace, st.advance)
      else nextToken fuel st.advance
    else
      match collectWhile (st.input.length + 2) validSymbol st with
      | .ok (result, st1) =>
        if result.length = 0 && st1.getChar ≠ nulChar then
          .fatal ("Unexpected Symbol " ++ String.mk [st1.getChar] ++ " on line " ++
            toString st1.row ++ ", char " ++ toString st1.col)
        else if result.length = 0 && st1.getChar = nulChar then
          if !st1.discard_eof then .ok (Token.eof, st1.advance)
          else .ok (Token.discard, st1.advance)
        else .ok (Token.symbol (String.mk result), st1.backup.advance)
      | .fatal m => .fatal m
      | .outOfFuel => .outOfFuel

/-- The loop of `Lexer::tokenize_input`: collect tokens while
`pos <= input.len()`, dropping `Discard` tokens. -/
def tokenizeLoop : Nat → Lexer → List Token → RRes (List Token)
  | 0, _, _ => .outOfFuel
  | fuel + 1, st, acc =>
    if st.pos ≤ st.input.length then
      match nextToken (st.input.length + 2) st with
      | .ok (t, st') =>
        tokenizeLoop fuel st'
          (match t with
           | .discard => acc
           | _ => acc ++ [t])
      | .fatal m => .fatal m
      | .outOfFuel => .outOfFuel
    else .ok acc

/-- `Lexer::tokenize_input`. -/
def tokenizeInput (st : Lexer) : RRes (List Token) :=
  tokenizeLoop (st.input.length + 2) st []

end Lexer

/-! ## Parser (`parser.rs`)

The plain `TokenList` input variant is modelled; the `SmartTokenList`
variant differs only in the row/column rendering of panic messages. -/

/-- `parser::Parser` state. -/
structure Parser where
  input : List Token
  parsing_map : Bool
  pos : Nat
deriving Repr

namespace Parser

/-- `Parser::from_token_list`. -/
def fromTokenList (input : List Token) : Parser :=
  { input, parsing_map := false, pos := 0 }

/-- `Parser::get_input_len`. -/
def getInputLen (st : Parser) : Nat := st.input.length

/-- `Parser::get_token`: the current token, `EoF` past the end. -/
def getToken (st : Parser) : Token :=
  if st.pos ≥ st.input.length then .eof else st.input.getD st.pos .eof

/-- `Parser::lookahead_tokens`. -/
def lookaheadTokens (st : Parser) (count : Nat) : Token :=
  if st.pos + count ≥ st.input.length then .eof
  else st.input.getD (st.pos + count) .eof

/-- `Parser::peek_token`. -/
def peekToken (st : Parser) : Token := st.lookaheadTokens 1

/-- `Parser::look_behind` (with the source's `usize` comparison
`pos - count <= 0` read over truncated subtraction). -/
def lookBehind (st : Parser) (count : Nat) : Token :=
  if st.pos - count ≤ 0 then .eof else st.input.getD (st.pos - count) .eof

/-- `Parser::advance`. -/
def advance (st : Parser) : Parser := { st with pos := st.pos + 1 }

/-- The trailing `self.pos -= 1` used by several parse functions. -/
def posDec (st : Parser) : Parser := { st with pos := st.pos - 1 }

/-- The whitespace-skipping loop of `Parser::advance_many`. The loop stops
as soon as `pos` reaches the input length (past it `get_token` is `EoF`),
so the fuel `input.length + 1` used by `advanceMany` never runs out. -/
def skipWsMany : Nat → Parser → Parser
  | 0, st => st
  | fuel + 1, st =>
    if st.getToken = .whitespace then skipWsMany fuel { st with pos := st.pos + 1 }
    else st

/-- `Parser::advance_many`. -/
def advanceMany (st : Parser) (count : Nat) : Parser :=
  skipWsMany (st.input.length + 1) { st with pos := st.pos + count }

/-- The whitespace-skipping loop of `Parser::advance_skip_whitespace`
(bounded by `pos < len`, so fuel `input.length + 1` never runs out). -/
def skipWsBounded : Nat → Parser → Parser
  | 0, st => st
  | fuel + 1, st =>
    if st.getToken = .whitespace ∧ st.pos < st.input.length then
      skipWsBounded fuel st.advance
    else st

/-- `Parser::advance_skip_whitespace`. -/
def advanceSkipWhitespace (st : Parser) : Parser :=
  skipWsBounded (st.input.length + 1) st.advance

/-- The loop of `Parser::peek_discard_whitespace` (the lookahead distance
grows until it falls off the input, so fuel `input.length + 1` never runs
out). -/
def peekDiscardWsLoop : Nat → Parser → Nat → Token
  | 0, _, _ => .eof
  | fuel + 1, st, count =>
    if st.pos + count ≥ st.input.length then .eof
    else
      let token := st.input.getD (st.pos + count) .eof
      if token = .whitespace then peekDiscardWsLoop fuel st (count + 1) else token

/-- `Parser::peek_discard_whitespace`. -/
def peekDiscardWhitespace (st : Parser) : Token :=
  peekDiscardWsLoop (st.input.length + 1) st 1

/-- The loop of `Parser::peek_next_token_nonws` (same bound as above). -/
def peekNonwsLoop : Nat → Parser → Nat → Token
  | 0, st, i => st.lookaheadTokens i
  | fuel + 1, st, i =>
    if st.lookaheadTokens i = .whitespace then peekNonwsLoop fuel st (i + 1)
    else st.lookaheadTokens i

/-- `Parser::peek_next_token_nonws`. -/
def peekNextTokenNonws (st : Parser) (count : Nat) : Token :=
  peekNonwsLoop (st.input.length + 1) st count

/-- Strip the delimiter characters off a lexed string token
(`string.remove(0); string.remove(len - 1)`). -/
def stripQuotes (s : String) : String :=
  String.mk ((s.toList.drop 1).dropLast)

/-- The loop of `Parser::parse_path`: concatenate slash/dot/symbol/string
tokens while `pos < len`; a `Discard` token panics. Fuel
`input.length + 1` never runs out since every step advances `pos`. -/
def parsePathLoop : Nat → Parser → String → RRes (String × Parser)
  | 0, _, _ => .outOfFuel
  | fuel + 1, st, acc =>
    if st.pos < st.input.length then
      match st.getToken with
      | .discard => .fatal "Parser got a Discard Token!"
      | .string str => parsePathLoop fuel st.advance (acc ++ stripQuotes str)
      | .symbol str => parsePathLoop fuel st.advance (acc ++ str)
      | .slash => parsePathLoop fuel st.advance (acc ++ "/")
      | .dot => parsePathLoop fuel st.advance (acc ++ ".")
      | _ => .ok (acc, st)
    else .ok (acc, st)

/-- `Parser::parse_path` (the final `pos -= 1` included). -/
def parsePath (st : Parser) : RRes (Expr × Parser) :=
  match parsePathLoop (st.input.length + 1) st "" with
  | .ok (s, st') => .ok (.path s, st'.posDec)
  | .fatal m => .fatal m
  | .outOfFuel => .outOfFuel

/-- `Parser::parse_mapref`. -/
def parseMapref (st : Parser) (mapSym attrSym : String) : Expr × Parser :=
  (Expr.mapRef (.symbol mapSym) (.symbol attrSym), advanceMany st 2)

/-- `Parser::parse_listref`: a non-integer index panics before the
`ListRef` is built. -/
def parseListref (st : Parser) (listSym : String) (index : ℚ) :
    RRes (Expr × Parser) :=
  if ratFract index ≠ 0 then
    .fatal ("Can not index a list by a non-integer number! Number: " ++
      ratToString index)
  else .ok (.listRef (.symbol listSym) ⟨index⟩, advanceMany st 3)

mutual
/-- `Parser::parse_token`. -/
def parseToken : Nat → Parser → RRes (Option Expr × Parser)
  | 0, _ => .outOfFuel
  | fuel + 1, st =>
    match st.getToken with
    | .discard => .fatal "Parser got a Discard Token!"
    | .boolean b => .ok (some (.boolean b), st)
    | .string s => .ok (some (.string s), st)
    | .number n => .ok (some (.number ⟨n⟩), st)
    | .slash =>
      match parsePath st with
      | .ok (e, st') => .ok (some e, st')
      | .fatal m => .fatal m
      | .outOfFuel => .outOfFuel
    | .dot =>
      if st.peekToken = .slash then
        match parsePath st with
        | .ok (e, st') => .ok (some e, st')
        | .fatal m => .fatal m
        | .outOfFuel => .outOfFuel
      else .fatal "Unknown token!"
    | .openBracket =>
      match parseListLoop fuel st [] with
      | .ok (e, st') => .ok (some e, st')
      | .fatal m => .fatal m
      | .outOfFuel => .outOfFuel
    | .openBrace =>
      match parseMapLoop fuel { st with parsing_map := true } [] with
      | .ok (e, st') => .ok (some e, { st' with parsing_map := false })
      | .fatal m => .fatal m
      | .outOfFuel => .outOfFuel
    | .openParen =>
      match parseParensLoop fuel st.advance [] with
      | .ok (exprs, st') => .ok (exprs.get? 1, st')
      | .fatal m => .fatal m
      | .outOfFuel => .outOfFuel
    | .symbol sym =>
      match parseSymbol fuel st sym with
      | .ok (e, st') => .ok (some e, st')
      | .fatal m => .fatal m
      | .outOfFuel => .outOfFuel
    | .closeBrace => .ok (none, st)
    | .closeParen => .ok (none, st)
    | .closeBracket => .ok (none, st)
    | .semicolon => .ok (none, st)
    | .eof => .ok (none, st)
    | .whitespace => parseToken fuel st.advanceSkipWhitespace
    | .comma => .fatal "Unknown token!"
    | .equal => .fatal "Unknown token!"

/-- `Parser::parse_symbol`. -/
def parseSymbol : Nat → Parser → String → RRes (Expr × Parser)
  | 0, _, _ => .outOfFuel
  | fuel + 1, st0, symbol =>
    let st := st0.advanceSkipWhitespace
    match st.getToken with
    | .semicolon => .ok (.symbol symbol, st)
    | .comma => .ok (.symbol symbol, st)
    | .closeBrace => .ok (.symbol symbol, st)
    | .closeBracket => .ok (.symbol symbol, st)
    | .eof => .ok (.symbol symbol, st)
    | .equal =>
      if st.parsing_map then .ok (.symbol symbol, st)
      else parseAssignment fuel st (.symbol symbol)
    | .dot =>
      match st.peekToken with
      | .symbol attr =>
        let (map_ref, st1) := st.parseMapref symbol attr
        (match st1.peekNextTokenNonws 0 with
         | .equal => parseAssignment fuel st1 map_ref
         | _ => .ok (map_ref, st1))
      | .number i =>
        .fatal ("Attempt to index a map " ++ symbol ++ " with a number " ++
          ratToString i ++ "; You can not index a Map with a number!")
      | .slash => parseFnCallLoop fuel st.posDec symbol []
      | _ => .fatal "Malformed MapRef!"
    | .openBracket =>
      if st.lookBehind 1 ≠ .whitespace then
        match st.peekToken with
        | .number i =>
          if st.lookaheadTokens 2 = .closeBracket then
            match st.parseListref symbol i with
            | .ok (list_ref, st1) =>
              (match st1.peekNextTokenNonws 1 with
               | .equal => parseAssignment fuel st1.advanceSkipWhitespace list_ref
               | _ => .ok (list_ref, st1))
            | .fatal m => .fatal m
            | .outOfFuel => .outOfFuel
          else if st.lookaheadTokens 2 ≠ .comma then
            .fatal ("Malformed List or ListRef! " ++ symbol)
          else .fatal "List panic!"
        | .closeBracket => parseFnCallLoop fuel st.posDec symbol []
        | _ =>
          if st.lookaheadTokens 2 ≠ .comma then
            .fatal ("Malformed List or ListRef! " ++ symbol)
          else .fatal "List panic!"
      else parseFnCallLoop fuel st.posDec symbol []
    | _ => parseFnCallLoop fuel st.posDec symbol []

/-- `Parser::parse_assignment` (`parse_token().unwrap()` panics on `None`). -/
def parseAssignment : Nat → Parser → Expr → RRes (Expr × Parser)
  | 0, _, _ => .outOfFuel
  | fuel + 1, st, symbol =>
    match parseToken fuel st.advanceSkipWhitespace with
    | .ok (some value, st') => .ok (.varDecl symbol value, st')
    | .ok (none, _) => .fatal "called Option::unwrap on a None value"
    | .fatal m => .fatal m
    | .outOfFuel => .outOfFuel

/-- The loop of `Parser::parse_fncall`: collect juxtaposed arguments until
a delimiter; `=` becomes the symbol `"="`; a parenthesized group is spliced
in via `parse_parens`. -/
def parseFnCallLoop : Nat → Parser → String → List Expr → RRes (Expr × Parser)
  | 0, _, _, _ => .outOfFuel
  | fuel + 1, st, name, args =>
    if st.pos < st.input.length then
      let st1 := st.advance
      match st1.getToken with
      | .discard => .fatal "Parser got a Discard Token!"
      | .comma => .ok (.fnCall name args, st1)
      | .semicolon => .ok (.fnCall name args, st1)
      | .eof => .ok (.fnCall name args, st1)
      | .closeParen => .ok (.fnCall name args, st1)
      | .closeBrace => .ok (.fnCall name args, st1)
      | .closeBracket => .ok (.fnCall name args, st1)
      | .equal => parseFnCallLoop fuel st1 name (args ++ [.symbol "="])
      | .whitespace => parseFnCallLoop fuel st1 name args
      | .openParen =>
        match parseParensLoop fuel st1.advance [] with
        | .ok (exprs, st2) => parseFnCallLoop fuel st2 name (args ++ exprs)
        | .fatal m => .fatal m
        | .outOfFuel => .outOfFuel
      | _ =>
        match parseToken fuel st1 with
        | .ok (some e, st2) => parseFnCallLoop fuel st2 name (args ++ [e])
        | .ok (none, st2) => parseFnCallLoop fuel st2 name args
        | .fatal m => .fatal m
        | .outOfFuel => .outOfFuel
    else .ok (.fnCall name args, st)

/-- The loop of `Parser::parse_map`. Note that the duplicate check tests
`map.contains_key(&expr.1)` — the parsed **value** — against the existing
keys, exactly as in the source, and that `BTreeMap::insert` silently
replaces an existing key. -/
def parseMapLoop : Nat → Parser → List (Expr × Expr) → RRes (Expr × Parser)
  | 0, _, _ => .outOfFuel
  | fuel + 1, st, acc =>
    if st.pos < st.input.length ∨ st.getToken ≠ .eof then
      let st1 := st.advance
      match st1.getToken with
      | .closeBrace => .ok (.map acc, st1.advance.posDec)
      | .semicolon => parseMapLoop fuel st1 acc
      | .whitespace => parseMapLoop fuel st1 acc
      | .comma => parseMapLoop fuel st1 acc
      | .closeBracket => .ok (.map acc, st1.posDec)
      | .symbol sym =>
        if st1.peekDiscardWhitespace = .equal then
          match parseToken fuel st1.advanceSkipWhitespace.advanceSkipWhitespace with
          | .ok (some t, st2) =>
            if mapContains acc t then
              match t with
              | .symbol str => .fatal ("Key " ++ str ++ " already exists in map!")
              | _ => .fatal ""
            else parseMapLoop fuel st2 (mapInsert acc (.symbol sym) t)
          | .ok (none, st2) => parseMapLoop fuel st2 acc
          | .fatal m => .fatal m
          | .outOfFuel => .outOfFuel
        else .fatal "Unknown symbol at key position in map!"
      | _ => .fatal "Unknown symbol at key position in map!"
    else .ok (.map acc, st.posDec)

/-- The loop of `Parser::parse_list`. -/
def parseListLoop : Nat → Parser → List Expr → RRes (Expr × Parser)
  | 0, _, _ => .outOfFuel
  | fuel + 1, st, acc =>
    if st.pos < st.input.length then
      let st1 := st.advance
      match st1.getToken with
      | .closeBracket => .ok (.list acc, st1.advance.posDec)
      | .comma => parseListLoop fuel st1 acc
      | .whitespace => parseListLoop fuel st1 acc
      | _ =>
        match parseToken fuel st1 with
        | .ok (some e, st2) => parseListLoop fuel st2 (acc ++ [e])
        | .ok (none, _) => .fatal "called Option::unwrap on a None value"
        | .fatal m => .fatal m
        | .outOfFuel => .outOfFuel
    else .ok (.list acc, st.posDec)

/-- The loop of `Parser::parse_parens` (the initial `advance` is done by
the caller): collect expressions until `CloseParen`, leaving the position
on the closing parenthesis. -/
def parseParensLoop : Nat → Parser → List Expr → RRes (List Expr × Parser)
  | 0, _, _ => .outOfFuel
  | fuel + 1, st, acc =>
    if st.pos < st.input.length then
      match st.getToken with
      | .closeParen => .ok (acc, st)
      | _ =>
        match parseToken fuel st with
        | .ok (some e, st1) => parseParensLoop fuel st1 (acc ++ [e])
        | .ok (none, st1) => parseParensLoop fuel st1 acc
        | .fatal m => .fatal m
        | .outOfFuel => .outOfFuel
    else .ok (acc, st)
end

/-- `Parser::parse_parens` as called from `parse_token` (which performs
the leading `advance`). -/
def parseParens (fuel : Nat) (st : Parser) : RRes (List Expr × Parser) :=
  parseParensLoop fuel st.advance []

/-- The loop of `Parser::parse_input`: parse top-level expressions until
`EoF` (a `None` result advances past the delimiter). -/
def parseInputLoop : Nat → Parser → List Expr → RRes (List Expr × Parser)
  | 0, _, _ => .outOfFuel
  | fuel + 1, st, acc =>
    if st.pos ≤ st.input.length ∧ st.getToken ≠ .eof then
      match parseToken fuel st with
      | .ok (some e, st1) => parseInputLoop fuel st1 (acc ++ [e])
      | .ok (none, st1) => parseInputLoop fuel st1.advance acc
      | .fatal m => .fatal m
      | .outOfFuel => .outOfFuel
    else .ok (acc, st)

/-- `Parser::parse_input`. -/
def parseInput (fuel : Nat) (st : Parser) : RRes (List Expr) :=
  match parseInputLoop fuel st [] with
  | .ok (exprs, _) => .ok exprs
  | .fatal m => .fatal m
  | .outOfFuel => .outOfFuel

end Parser

/-! ## Domain model (`system.rs`) and converter (`system_converter.rs`) -/

/-- `system::Service`. -/
structure Service where
  name : String
  enabled : Bool
  downed : Bool
deriving DecidableEq, Repr

/-- `system::RemoteSource`. -/
inductive RemoteSource where
  | githubRemote (user : String) (repository_name : String) (branch_name : Option String)
  | gitRemote (url : String) (branch_name : Option String)
  | voidRemote (name : String)
  | voidRepo
deriving DecidableEq, Repr

/-- `system::LocalSource`. -/
inductive LocalSource where
  | directory (p : String)
  | file (p : String)
deriving DecidableEq, Repr

/-- `system::Source`. -/
inductive Source where
  | remote (r : RemoteSource)
  | localSource (l : LocalSource)
deriving DecidableEq, Repr

/-- `system::PackageRepository`. -/
structure PackageRepository where
  name : Option String
  location : Source
  allow_restricted : Bool
deriving DecidableEq, Repr

/-- `system::Package`. -/
structure Package where
  config : Option String
  repository : Source
deriving DecidableEq, Repr

/-- `system::HomeDirectory`. -/
inductive HomeDirectory where
  | path (location : String) (subdirs : List String)
deriving DecidableEq, Repr

/-- `system::User` (its `HashMap` of packages modelled as the association
list the converter collects). -/
structure User where
  username : Option String
  homedir : HomeDirectory
  dotfiles : Option Source
  packages : List (String × Package)
deriving DecidableEq, Repr

/-- `system::System` (its `HashMap`s modelled as the association lists the
converter collects). -/
structure System where
  services : List (String × Service)
  repositories : List (String × PackageRepository)
  users : List (String × User)
  system_packages : String
deriving DecidableEq, Repr

/-- `Service::from_map`. -/
def Service.from_map (map : Expr) : Except String (String × Service) :=
  match map.get_map_value (Expr.symbol_from_str "name") with
  | some (.string str) =>
    .ok (str,
      { name := str,
        enabled :=
          match map.get_map_value (Expr.symbol_from_str "enabled") with
          | some (.boolean b) => b
          | _ => true,
        downed :=
          match map.get_map_value (Expr.symbol_from_str "downed") with
          | some (.boolean b) => b
          | _ => false })
  | _ => .error "Name must be provided!"

/-- The `list.iter().map(Service::from_map).collect()` of
`Service::from_list`, with panic propagation. -/
def servicesFromList : List Expr → Except String (List (String × Service))
  | [] => .ok []
  | e :: rest =>
    match Service.from_map e with
    | .ok sv =>
      match servicesFromList rest with
      | .ok svs => .ok (sv :: svs)
      | .error m => .error m
    | .error m => .error m

/-- `Service::from_list`. -/
def Service.from_list (list : Expr) : Except String (List (String × Service)) :=
  match list with
  | .list l => servicesFromList l
  | _ => .error "Unable convert non-list type to services!"

/-- `PackageRepository::from_map`. -/
def PackageRepository.from_map (map : Expr) (name : Expr) :
    Except String PackageRepository :=
  match name with
  | .symbol n =>
    match map.get_map_value (Expr.symbol_from_str "location") with
    | some (.gitHubRemote user repo branch) =>
      .ok
        { name := some n,
          location := Source.remote (.githubRemote user repo
            (match branch with
             | some b => some b
             | none =>
               match map.get_map_value (Expr.symbol_from_str "branch") with
               | some (.string str) => some str
               | _ => none)),
          allow_restricted :=
            match map.get_map_value (Expr.symbol_from_str "allow_restricted") with
            | some (.boolean allow) => allow
            | _ => false }
    | some (.string _) => .error "not yet implemented"
    | _ =>
      .error ("system.config.vp_repos." ++ n ++
        ".location is not a valid type or was not in the map!")
  | _ => .error "Name is not a symbol!"

/-- The map-entry iteration of `PackageRepository::from_big_map`:
`(n.extract_str(), from_map(m, n))` per entry, with panic propagation. -/
def reposFromEntries : List (Expr × Expr) →
    Except String (List (String × PackageRepository))
  | [] => .ok []
  | nm :: rest =>
    match nm.1.extract_str with
    | .ok s =>
      match PackageRepository.from_map nm.2 nm.1 with
      | .ok pr =>
        match reposFromEntries rest with
        | .ok prs => .ok ((s, pr) :: prs)
        | .error e => .error e
      | .error e => .error e
    | .error e => .error e

/-- `PackageRepository::from_big_map`. -/
def PackageRepository.from_big_map (map : Expr) :
    Except String (List (String × PackageRepository)) :=
  match map with
  | .map m => reposFromEntries m
  | _ => .error "Unable to convert non-map type to package repositories!"

/-- The subdirs iteration of `User::from_map`: every element must be a
`Path`. -/
def subdirPaths : List Expr → Except String (List String)
  | [] => .ok []
  | e :: rest =>
    match e with
    | .path p =>
      match subdirPaths rest with
      | .ok ps => .ok (p :: ps)
      | .error m => .error m
    | _ => .error "Only Paths are allowed in subdirs!"

/-- The packages iteration of `User::from_map`: every plain `Symbol`
becomes a `Package` from the void repository. -/
def packagesFromList : List Expr → Except String (List (String × Package))
  | [] => .ok []
  | e :: rest =>
    match e with
    | .symbol n =>
      match packagesFromList rest with
      | .ok ps =>
        .ok ((n, ({ config := none,
                    repository := Source.remote .voidRepo } : Package)) :: ps)
      | .error m => .error m
    | _ => .error "Unknown Expr when handling packages."

/-- `User::from_map`. -/
def User.from_map (map : Expr) (name : Expr) : Except String User :=
  match name with
  | .symbol username =>
    let homedirRes : Except String HomeDirectory :=
      match map.get_map_value (Expr.symbol_from_str "homedir") with
      | some (.map hm) =>
        match
          (match mapGet hm (.symbol "location") with
           | some location =>
             match location.extract_str with
             | .ok s => .ok s
             | .error e => .error e
           | none => .ok ("/home/" ++ username) : Except String String)
        with
        | .ok location =>
          match
            (match mapGet hm (.symbol "subdirs") with
             | some (.list l) => subdirPaths l
             | some _ => .error "Subdirs must be a list, or be missing"
             | none => .ok [] : Except String (List String))
          with
          | .ok subdirs => .ok (HomeDirectory.path location subdirs)
          | .error e => .error e
        | .error e => .error e
      | some (.string _) => .error "not yet implemented"
      | none => .ok (HomeDirectory.path ("/home/" ++ username) [])
      | _ =>
        .error ("system.config.users." ++ username ++ ".homedir is not a valid type!")
    match homedirRes with
    | .ok homedir =>
      let dotfilesRes : Except String (Option Source) :=
        match map.get_map_value (Expr.symbol_from_str "dotfiles") with
        | some (.gitHubRemote user repo branch) =>
          .ok (some (Source.remote (.githubRemote user repo branch)))
        | none => .ok none
        | _ =>
          .error ("system.config.users." ++ username ++
            ".dotfiles is not a valid type!")
      match dotfilesRes with
      | .ok dotfiles =>
        let packagesRes : Except String (List (String × Package)) :=
          match map.get_map_value (Expr.symbol_from_str "packages") with
          | some (.list l) => packagesFromList l
          | none => .ok []
          | _ => .error "packages is not a valid type"
        match packagesRes with
        | .ok packages =>
          .ok { username := some username, homedir, dotfiles, packages }
        | .error e => .error e
      | .error e => .error e
    | .error e => .error e
  | _ => .error "Name is not a symbol!"

/-- The map-entry iteration of `User::from_big_map`:
`(n.extract_str(), from_map(m, n))` per entry, with panic propagation. -/
def usersFromEntries : List (Expr × Expr) → Except String (List (String × User))
  | [] => .ok []
  | nm :: rest =>
    match nm.1.extract_str with
    | .ok s =>
      match User.from_map nm.2 nm.1 with
      | .ok u =>
        match usersFromEntries rest with
        | .ok us => .ok ((s, u) :: us)
        | .error e => .error e
      | .error e => .error e
    | .error e => .error e

/-- `User::from_big_map`. -/
def User.from_big_map (map : Expr) : Except String (List (String × User)) :=
  match map with
  | .map m => usersFromEntries m
  | _ => .error "Unable to convert non-map type to package repositories!"

/-- `System::from_map`: note the `users` field is built as
`HashMap::new()` — the `users` entry of the configuration map is never
read. -/
def System.from_map (map : Expr) : Except String System :=
  match
    (match map.get_map_value (Expr.symbol_from_str "services") with
     | none => .ok []
     | some l => Service.from_list l : Except String (List (String × Service)))
  with
  | .ok services =>
    match
      (match map.get_map_value (Expr.symbol_from_str "vp_repos") with
       | none => .ok []
       | some m => PackageRepository.from_big_map m :
        Except String (List (String × PackageRepository)))
    with
    | .ok repositories =>
      .ok { services, repositories, users := [], system_packages := "" }
    | .error e => .error e
  | .error e => .error e

/-! ### The ListRef-index invariant of the parser (claim C8) -/

/-- The expressions the parser can produce, with every `ListRef` index
satisfying `P`: exactly the constructors the parse functions build, with
the premise `P` at each `listRef` index. -/
inductive GoodIdx (P : NumberExpr → Prop) : Expr → Prop where
  | string (s : String) : GoodIdx P (.string s)
  | number (n : NumberExpr) : GoodIdx P (.number n)
  | boolean (b : Bool) : GoodIdx P (.boolean b)
  | symbol (s : String) : GoodIdx P (.symbol s)
  | path (p : String) : GoodIdx P (.path p)
  | varDecl {n v : Expr} : GoodIdx P n → GoodIdx P v → GoodIdx P (.varDecl n v)
  | gitHubRemote (u r : String) (b : Option String) :
      GoodIdx P (.gitHubRemote u r b)
  | list {items : List Expr} (h : ∀ e ∈ items, GoodIdx P e) :
      GoodIdx P (.list items)
  | listRef {c : Expr} {i : NumberExpr} (hc : GoodIdx P c) (hi : P i) :
      GoodIdx P (.listRef c i)
  | map {entries : List (Expr × Expr)}
      (h1 : ∀ kv ∈ entries, GoodIdx P kv.1)
      (h2 : ∀ kv ∈ entries, GoodIdx P kv.2) :
      GoodIdx P (.map entries)
  | mapRef {c a : Expr} (hc : GoodIdx P c) (ha : GoodIdx P a) :
      GoodIdx P (.mapRef c a)
  | fnCall {name : String} {args : List Expr} (h : ∀ e ∈ args, GoodIdx P e) :
      GoodIdx P (.fnCall name args)

/-- The indices the claim asserts: fractional part exactly zero and
non-negative. -/
def IdxOK (idx : NumberExpr) : Prop := ratFract idx.num = 0 ∧ 0 ≤ idx.num

/-- All `Number` tokens of a token list are non-negative (true of every
stream the lexer produces). -/
def TokNonneg (ts : List Token) : Prop := ∀ q, Token.number q ∈ ts → 0 ≤ q

namespace Parser

/-- `skipWsMany` does not change the input. -/
theorem skipWsMany_input (fuel : Nat) (st : Parser) :
    (skipWsMany fuel st).input = st.input := by
  induction fuel generalizing st with
  | zero => rfl
  | succ n ih =>
    simp only [skipWsMany]
    split
    · exact ih _
    · rfl

/-- `advanceMany` does not change the input. -/
theorem advanceMany_input (st : Parser) (count : Nat) :
    (advanceMany st count).input = st.input := by
  simp [advanceMany, skipWsMany_input]

/-- `skipWsBounded` does not change the input. -/
theorem skipWsBounded_input (fuel : Nat) (st : Parser) :
    (skipWsBounded fuel st).input = st.input := by
  induction fuel generalizing st with
  | zero => rfl
  | succ n ih =>
    simp only [skipWsBounded]
    split
    · exact ih _
    · rfl

/-- `advance_skip_whitespace` does not change the input. -/
theorem advanceSkipWhitespace_input (st : Parser) :
    st.advanceSkipWhitespace.input = st.input := by
  simp [advanceSkipWhitespace, skipWsBounded_input, advance]

/-- The parsing-map flag does not change the input either. -/
theorem advanceSkipWhitespace_parsing_map (st : Parser) :
    st.advanceSkipWhitespace.parsing_map = st.parsing_map := by
  have h : ∀ fuel s, (skipWsBounded fuel s).parsing_map = s.parsing_map := by
    intro fuel
    induction fuel with
    | zero => intro s; rfl
    | succ n ih =>
      intro s
      simp only [skipWsBounded]
      split
      · exact ih _
      · rfl
  simpa [advanceSkipWhitespace, advance] using h _ _

/-- `parsePathLoop` does not change the input. -/
theorem parsePathLoop_input (fuel : Nat) (st : Parser) (acc s : String)
    (st' : Parser) (h : parsePathLoop fuel st acc = .ok (s, st')) :
    st'.input = st.input := by
  induction fuel generalizing st acc with
  | zero => exact RRes.noConfusion h
  | succ n ih =>
    simp only [parsePathLoop] at h
    split at h
    · split at h
      · exact RRes.noConfusion h
      · exact ih st.advance _ h
      · exact ih st.advance _ h
      · exact ih st.advance _ h
      · exact ih st.advance _ h
      · cases h; rfl
    · cases h; rfl

/-- `parse_path` produces a `Path` expression and preserves the input. -/
theorem parsePath_spec (st : Parser) (e : Expr) (st' : Parser)
    (h : parsePath st = .ok (e, st')) :
    st'.input = st.input ∧ ∃ p, e = .path p := by
  simp only [parsePath] at h
  split at h
  · next s st1 hloop =>
    cases h
    exact ⟨parsePathLoop_input _ _ _ _ st1 hloop, _, rfl⟩
  · exact RRes.noConfusion h
  · exact RRes.noConfusion h

/-- `parse_listref` only succeeds on an integral index, producing the
`ListRef` of that index and preserving the input. -/
theorem parseListref_spec (st : Parser) (sym : String) (i : ℚ) (e : Expr)
    (st' : Parser) (h : parseListref st sym i = .ok (e, st')) :
    e = .listRef (.symbol sym) ⟨i⟩ ∧ ratFract i = 0 ∧ st'.input = st.input := by
  simp only [parseListref] at h
  split at h
  · exact RRes.noConfusion h
  · next hz =>
    cases h
    exact ⟨rfl, by simpa using hz, advanceMany_input _ _⟩

/-- A non-`EoF` result of `lookahead_tokens` is a member of the input. -/
theorem lookaheadTokens_mem (st : Parser) (count : Nat) (t : Token)
    (h : st.lookaheadTokens count = t) (hne : t ≠ .eof) : t ∈ st.input := by
  simp only [lookaheadTokens] at h
  split at h
  · exact absurd h.symm hne
  · next hlt =>
    subst h
    have hlt' : st.pos + count < st.input.length := by omega
    rw [List.getD_eq_getElem?_getD, List.getElem?_eq_getElem hlt']
    exact List.getElem_mem _

end Parser

/-- Inserting a good entry into a good map yields a good map. -/
theorem mapInsert_goodIdx {P : NumberExpr → Prop}
    (m : List (Expr × Expr)) (k v : Expr)
    (hm : ∀ kv ∈ m, GoodIdx P kv.1 ∧ GoodIdx P kv.2)
    (hk : GoodIdx P k) (hv : GoodIdx P v) :
    ∀ kv ∈ mapInsert m k v, GoodIdx P kv.1 ∧ GoodIdx P kv.2 := by
  induction m with
  | nil =>
    intro kv hkv
    simp only [mapInsert, List.mem_singleton] at hkv
    subst hkv
    exact ⟨hk, hv⟩
  | cons p rest ih =>
    intro kv hkv
    simp only [mapInsert] at hkv
    split at hkv
    · rcases List.mem_cons.mp hkv with rfl | h'
      · exact ⟨(hm p (List.mem_cons_self _ _)).1, hv⟩
      · exact hm _ (List.mem_cons_of_mem _ h')
    · rcases List.mem_cons.mp hkv with rfl | h'
      · exact hm _ (List.mem_cons_self _ _)
      · exact ih (fun q hq => hm q (List.mem_cons_of_mem _ hq)) _ h'

/-- The value component of an evaluation result (what an observer of a
thunk sees), discarding the ambient environment. -/
def evalValue : EvalRes → RRes (Option Expr)
  | .fatal m => .fatal m
  | .outOfFuel => .outOfFuel
  | .ok (v, _) => .ok v

/-! ## Theorems for the claims -/

/-- Claim C4: in eager mode (`disable_lazy = true`), evaluating the call
`replace '.' ',' 'a.b'` with `replace` bound to the `replace` built-in
returns the string `"a,b"` (leaving the environment unchanged), and
evaluating `join ',' ['a','b',1]` with `join` bound to the `join`
built-in returns `"a,b,1"` — the list items stringified and separated by
the first argument. -/
theorem replace_join_eager_results :
    eval 10 (.fnCall "replace" [.string ".", .string ",", .string "a.b"])
      (.mk [("replace", .builtin .replace)] none) true =
      .ok (some (.string "a,b"), .mk [("replace", .builtin .replace)] none) ∧
    eval 10 (.fnCall "join" [.string ",", .list [.string "a", .string "b", .number ⟨1⟩]])
      (.mk [("join", .builtin .join)] none) true =
      .ok (some (.string "a,b,1"), .mk [("join", .builtin .join)] none) :=
  ⟨rfl, rfl⟩

/-- Claim C5: `create_standard_env` binds `replace`, `join`, `home` and
`use_file` to the unimplemented `todo_fn` built-in, so calling through
those names aborts with the `todo!()` panic (modelled as the fatal result
`"not yet implemented"`) — in eager mode at the call itself, and in lazy
mode when the returned thunk is forced — even though fully implemented
`join` and `replace` built-ins exist and produce strings. -/
theorem standard_env_replace_join_are_todo :
    createStandardEnv.findVariable "replace" = .ok (.builtin .todo_fn) ∧
    createStandardEnv.findVariable "join" = .ok (.builtin .todo_fn) ∧
    createStandardEnv.findVariable "home" = .ok (.builtin .todo_fn) ∧
    createStandardEnv.findVariable "use_file" = .ok (.builtin .todo_fn) ∧
    (∀ fuel args env,
      runBuiltin (fuel + 1) .todo_fn args env = .fatal "not yet implemented") ∧
    (∀ args,
      eval 10 (.fnCall "replace" args) createStandardEnv true =
        .fatal "not yet implemented") ∧
    (∀ args,
      eval 10 (.fnCall "join" args) createStandardEnv true =
        .fatal "not yet implemented") ∧
    (∀ args env fuel,
      eval (fuel + 2) (.fnResult (.builtin .todo_fn) args env) createStandardEnv false =
        .fatal "not yet implemented") ∧
    runBuiltin 1 .replace [.string ".", .string ",", .string "a.b"] Env.new =
      .ok (some (.string "a,b"), Env.new) ∧
    runBuiltin 1 .join [.string ",", .list [.string "a", .string "b"]] Env.new =
      .ok (some (.string "a,b"), Env.new) := by
  refine ⟨rfl, rfl, rfl, rfl, ?_, ?_, ?_, ?_, rfl, rfl⟩
  · intro fuel args env
    rfl
  · intro args
    rfl
  · intro args
    rfl
  · intro args env fuel
    rfl

/-- Claim C6 (code bug): the duplicate-key check in `parse_map` tests
`map.contains_key(&expr.1)` — the parsed **value** — instead of the key
`expr.0`. Consequently the map literal `{ a = 1; a = 2; }`, which the
claim says is a fatal parse error naming `a`, parses without error to
`Map{ a: 2 }` (`BTreeMap::insert` silently replaces), while the innocent
literal `{ a = 1; b = a; }` wrongly aborts with "Key a already exists in
map!" because the value `a` collides with the existing key `a`. -/
theorem parse_map_duplicate_key_not_detected :
    Parser.parseToken 100 (Parser.fromTokenList
      [.openBrace, .symbol "a", .equal, .number 1, .semicolon,
       .symbol "a", .equal, .number 2, .semicolon, .closeBrace]) =
      .ok (some (.map [(.symbol "a", .number ⟨2⟩)]),
        ⟨[.openBrace, .symbol "a", .equal, .number 1, .semicolon,
          .symbol "a", .equal, .number 2, .semicolon, .closeBrace], false, 9⟩) ∧
    Parser.parseToken 100 (Parser.fromTokenList
      [.openBrace, .symbol "a", .equal, .number 1, .semicolon,
       .symbol "b", .equal, .symbol "a", .semicolon, .closeBrace]) =
      .fatal "Key a already exists in map!" :=
  ⟨rfl, rfl⟩

/-- Claim C9 (code bug): tokenizing the input `true` produces
`[Boolean(true)]` with no `EoF` token at all — the boolean arm of
`next_token` skips the `backup()` that every other token arm performs, so
the final `advance()` overshoots the end-of-input position and the
tokenize loop exits before emitting `EoF`. This contradicts the claimed
contract that the stream of `tokenize_input` (with `discard_eof` unset)
always ends with exactly one `EoF`. -/
theorem tokenize_true_drops_eof :
    Lexer.tokenizeInput (Lexer.fromString "true") = .ok [.boolean true] ∧
    Token.eof ∉ [Token.boolean true] :=
  ⟨rfl, by simp⟩

/-- Claim C10: for a parenthesized group, `parse_token` returns the second
expression `parse_parens` collects (discarding the first), and `none` when
the group yields fewer than two expressions. The first conjunct states the
relation for every parser state positioned on `(`; the remaining conjuncts
run two concrete groups: `( a.b c )` returns the second expression
(the call `c`), and `( add 1 2 )` — a single collected expression —
yields no value. -/
theorem parse_parens_returns_second :
    (∀ fuel st, st.getToken = .openParen →
      Parser.parseToken (fuel + 1) st =
        match Parser.parseParens fuel st with
        | .ok (exprs, st') => .ok (exprs.get? 1, st')
        | .fatal m => .fatal m
        | .outOfFuel => .outOfFuel) ∧
    Parser.parseToken 100 (Parser.fromTokenList
      [.openParen, .symbol "a", .dot, .symbol "b", .whitespace,
       .symbol "c", .closeParen, .eof]) =
      .ok (some (.fnCall "c" []),
        ⟨[.openParen, .symbol "a", .dot, .symbol "b", .whitespace,
          .symbol "c", .closeParen, .eof], false, 6⟩) ∧
    Parser.parseToken 100 (Parser.fromTokenList
      [.openParen, .symbol "add", .number 1, .number 2, .closeParen, .eof]) =
      .ok (none,
        ⟨[.openParen, .symbol "add", .number 1, .number 2, .closeParen, .eof],
         false, 4⟩) := by
  refine ⟨?_, rfl, rfl⟩
  intro fuel st h
  simp only [Parser.parseToken, h, Parser.parseParens]

/-- Claim C10 witness: the general conjunct applied at a concrete state on
an opening parenthesis. -/
theorem parse_parens_returns_second_witness :
    Parser.parseToken 101 (Parser.fromTokenList
      [.openParen, .symbol "add", .number 1, .number 2, .closeParen, .eof]) =
      match Parser.parseParens 100 (Parser.fromTokenList
        [.openParen, .symbol "add", .number 1, .number 2, .closeParen, .eof]) with
      | .ok (exprs, st') => .ok (exprs.get? 1, st')
      | .fatal m => .fatal m
      | .outOfFuel => .outOfFuel :=
  parse_parens_returns_second.1 100 _ rfl

/-- Claim C1 counterexample: `System::from_map` applied to a configuration
map whose `users` entry maps `alice` to an (empty) user-map yields a
`System` whose `users` field is empty — not one `User` per username as
claimed; the converter never reads the `users` entry. -/
theorem from_map_drops_users :
    System.from_map (.map [(.symbol "users", .map [(.symbol "alice", .map [])])]) =
      .ok { services := [], repositories := [], users := [], system_packages := "" } ∧
    ¬ ∃ u, ("alice", u) ∈
      ({ services := [], repositories := [], users := [], system_packages := "" }
        : System).users := by
  exact ⟨rfl, by simp⟩

/-- Claim C7: with the container symbol bound to a list, evaluating a
`ListRef` whose index (truncated toward zero, clamped at zero like the
source's `as usize` cast) is in range returns the element at that
position, and an out-of-range index is fatal; in particular with
`c = [true, 10]`, `ListRef(Symbol c, 1)` evaluates to the number `10`. -/
theorem listref_eval_indexing (fuel : Nat) (env : Env) (sym : String)
    (q : NumberExpr) (l : List Expr) (d : Bool)
    (h : env.findVariable sym = .ok (.list l)) :
    (∀ e, l.get? (f64AsUsize q.num) = some e →
      eval (fuel + 1) (.listRef (.symbol sym) q) env d = .ok (some e, env)) ∧
    (l.get? (f64AsUsize q.num) = none →
      eval (fuel + 1) (.listRef (.symbol sym) q) env d = .fatal "Invalid index") ∧
    eval (fuel + 1) (.listRef (.symbol "c") ⟨1⟩)
      (.mk [("c", .list [.boolean true, .number ⟨10⟩])] none) d =
      .ok (some (.number ⟨10⟩),
        .mk [("c", .list [.boolean true, .number ⟨10⟩])] none) := by
  refine ⟨?_, ?_, rfl⟩
  · intro e he
    simp only [eval, Env.findVariableWithExpr, h, he]
  · intro he
    simp only [eval, Env.findVariableWithExpr, h, he]

/-- Claim C7 witness: in the environment binding `c` to `[true, 10]`, the
index 1 is in range and returns `10`, while the index 5 is out of range
and fatal. -/
theorem listref_eval_indexing_witness :
    eval 1 (.listRef (.symbol "c") ⟨1⟩)
      (.mk [("c", .list [.boolean true, .number ⟨10⟩])] none) false =
      .ok (some (.number ⟨10⟩),
        .mk [("c", .list [.boolean true, .number ⟨10⟩])] none) ∧
    eval 1 (.listRef (.symbol "c") ⟨5⟩)
      (.mk [("c", .list [.boolean true, .number ⟨10⟩])] none) false =
      .fatal "Invalid index" :=
  ⟨(listref_eval_indexing 0 (.mk [("c", .list [.boolean true, .number ⟨10⟩])] none)
      "c" ⟨1⟩ [.boolean true, .number ⟨10⟩] false rfl).1 (.number ⟨10⟩) rfl,
   (listref_eval_indexing 0 (.mk [("c", .list [.boolean true, .number ⟨10⟩])] none)
      "c" ⟨5⟩ [.boolean true, .number ⟨10⟩] false rfl).2.1 rfl⟩

/-- Claim C2: evaluating `VarDecl(MapRef(Symbol m, key), value)` when `m`
is bound to a map inserts `(key, value)` into a new map, rebinds `m` in
the current frame, and returns `value`; it is fatal when `m` is unbound
("Map m does not exist") or bound to a non-map. The last three conjuncts
run the concrete scenario: the token stream of
`system.config = { aaa = 123 }` parses to the claimed `VarDecl`, and
evaluating it with `system` bound to the empty map rebinds `system` to
`Map{ config: Map{ aaa: 123 } }` and returns the bound value. -/
theorem vardecl_mapref_eval (fuel : Nat) (env : Env) (m : String)
    (key value : Expr) (entries : List (Expr × Expr)) (d : Bool) :
    (env.getVariable m = .ok (some (.map entries)) →
      eval (fuel + 1) (.varDecl (.mapRef (.symbol m) key) value) env d =
        .ok (some value,
          .mk (assocInsert env.vars m (.map (mapInsert entries key value)))
            env.parent)) ∧
    (env.getVariable m = .ok none →
      eval (fuel + 1) (.varDecl (.mapRef (.symbol m) key) value) env d =
        .fatal ("Map " ++ m ++ " does not exist in env!")) ∧
    (∀ v, env.getVariable m = .ok (some v) → (∀ es, v ≠ .map es) →
      eval (fuel + 1) (.varDecl (.mapRef (.symbol m) key) value) env d =
        .fatal "You cant do attr access on a non-map type!") ∧
    Parser.parseToken 100 (Parser.fromTokenList
      [.symbol "system", .dot, .symbol "config", .equal, .openBrace,
       .symbol "aaa", .equal, .number 123, .semicolon, .closeBrace]) =
      .ok (some (.varDecl (.mapRef (.symbol "system") (.symbol "config"))
          (.map [(.symbol "aaa", .number ⟨123⟩)])),
        ⟨[.symbol "system", .dot, .symbol "config", .equal, .openBrace,
          .symbol "aaa", .equal, .number 123, .semicolon, .closeBrace],
         false, 9⟩) ∧
    eval (fuel + 1)
      (.varDecl (.mapRef (.symbol "system") (.symbol "config"))
        (.map [(.symbol "aaa", .number ⟨123⟩)]))
      (.mk [("system", .map [])] none) d =
      .ok (some (.map [(.symbol "aaa", .number ⟨123⟩)]),
        .mk [("system",
          .map [(.symbol "config", .map [(.symbol "aaa", .number ⟨123⟩)])])] none) ∧
    (Env.mk [("system",
        .map [(.symbol "config", .map [(.symbol "aaa", .number ⟨123⟩)])])]
        none).findVariable "system" =
      .ok (.map [(.symbol "config", .map [(.symbol "aaa", .number ⟨123⟩)])]) := by
  refine ⟨?_, ?_, ?_, rfl, rfl, rfl⟩
  · intro h
    simp only [eval, Env.addVariable, h]
  · intro h
    simp only [eval, Env.addVariable, h]
  · intro v h hv
    cases v with
    | map es => exact absurd rfl (hv es)
    | _ => simp only [eval, Env.addVariable, h]

/-- Claim C2 witness: the general conjuncts applied in the concrete
`system` scenario (map case, unbound case, non-map case). -/
theorem vardecl_mapref_eval_witness :
    eval 1 (.varDecl (.mapRef (.symbol "system") (.symbol "config"))
        (.map [(.symbol "aaa", .number ⟨123⟩)]))
      (.mk [("system", .map [])] none) false =
      .ok (some (.map [(.symbol "aaa", .number ⟨123⟩)]),
        .mk (assocInsert [("system", .map [])] "system"
          (.map (mapInsert [] (.symbol "config")
            (.map [(.symbol "aaa", .number ⟨123⟩)])))) none) ∧
    eval 1 (.varDecl (.mapRef (.symbol "system") (.symbol "config"))
        (.boolean true)) (.mk [] none) false =
      .fatal "Map system does not exist in env!" ∧
    eval 1 (.varDecl (.mapRef (.symbol "system") (.symbol "config"))
        (.boolean true)) (.mk [("system", .number ⟨1⟩)] none) false =
      .fatal "You cant do attr access on a non-map type!" :=
  ⟨(vardecl_mapref_eval 0 (.mk [("system", .map [])] none) "system"
      (.symbol "config") (.map [(.symbol "aaa", .number ⟨123⟩)]) [] false).1 rfl,
   (vardecl_mapref_eval 0 (.mk [] none) "system"
      (.symbol "config") (.boolean true) [] false).2.1 rfl,
   (vardecl_mapref_eval 0 (.mk [("system", .number ⟨1⟩)] none) "system"
      (.symbol "config") (.boolean true) [] false).2.2.1 (.number ⟨1⟩) rfl
      (fun _ h => Expr.noConfusion h)⟩

/-- Claim C3: in default (lazy) mode, a `FnCall` whose name resolves to a
builtin returns a `FnResult` thunk capturing the call-moment environment
itself, for every builtin — so the builtin body is not invoked. Evaluating
a thunk only consults its captured environment: the result value is
independent of the ambient environment, so any later mutation of the
caller's environment (e.g. through `add_variable`) leaves the thunk's
result unchanged. -/
theorem fncall_lazy_thunk (fuel : Nat) (env : Env) (name : String)
    (args : List Expr) (b : BuiltinName)
    (h : env.findVariable name = .ok (.builtin b)) :
    eval (fuel + 1) (.fnCall name args) env false =
      .ok (some (.fnResult (.builtin b) args env), env) ∧
    (∀ cenv env' d, eval (fuel + 1) (.fnResult (.builtin b) args cenv) env' d =
      match runBuiltin fuel b args cenv with
      | .ok (v, _) => .ok (v, env')
      | .fatal msg => .fatal msg
      | .outOfFuel => .outOfFuel) ∧
    (∀ cenv env1 env2 d1 d2,
      evalValue (eval (fuel + 1) (.fnResult (.builtin b) args cenv) env1 d1) =
        evalValue (eval (fuel + 1) (.fnResult (.builtin b) args cenv) env2 d2)) ∧
    (∀ x v env', env.addVariable x v = .ok env' →
      evalValue (eval (fuel + 1) (.fnResult (.builtin b) args env) env' false) =
        evalValue (eval (fuel + 1) (.fnResult (.builtin b) args env) env false)) := by
  have hstep : ∀ cenv env' (d : Bool),
      eval (fuel + 1) (.fnResult (.builtin b) args cenv) env' d =
        match runBuiltin fuel b args cenv with
        | .ok (v, _) => .ok (v, env')
        | .fatal msg => .fatal msg
        | .outOfFuel => .outOfFuel := by
    intro cenv env' d
    simp only [eval]
  have hval : ∀ cenv env1 env2 (d1 d2 : Bool),
      evalValue (eval (fuel + 1) (.fnResult (.builtin b) args cenv) env1 d1) =
        evalValue (eval (fuel + 1) (.fnResult (.builtin b) args cenv) env2 d2) := by
    intro cenv env1 env2 d1 d2
    rw [hstep, hstep]
    rcases runBuiltin fuel b args cenv with m | _ | ⟨v, e⟩ <;> rfl
  exact ⟨by simp only [eval, h]; rfl, hstep, hval,
    fun x v env' _ => hval env env' env false false⟩

/-- Claim C3 witness: in the standard environment, the lazy call
`gh-r 'sapein' 'void-packages'` returns a thunk capturing the standard
environment without running `github_repo`, and the thunk's value is the
same before and after rebinding `system`. -/
theorem fncall_lazy_thunk_witness :
    eval 1 (.fnCall "gh-r" [.string "sapein", .string "void-packages"])
      createStandardEnv false =
      .ok (some (.fnResult (.builtin .github_repo)
        [.string "sapein", .string "void-packages"] createStandardEnv),
        createStandardEnv) ∧
    evalValue (eval 1 (.fnResult (.builtin .github_repo)
        [.string "sapein", .string "void-packages"] createStandardEnv)
      (createStandardEnv.addVarSymbol "system" (.boolean true)) false) =
      evalValue (eval 1 (.fnResult (.builtin .github_repo)
        [.string "sapein", .string "void-packages"] createStandardEnv)
      createStandardEnv false) :=
  ⟨(fncall_lazy_thunk 0 createStandardEnv "gh-r"
      [.string "sapein", .string "void-packages"] .github_repo rfl).1,
   (fncall_lazy_thunk 0 createStandardEnv "gh-r"
      [.string "sapein", .string "void-packages"] .github_repo rfl).2.2.1
      createStandardEnv (createStandardEnv.addVarSymbol "system" (.boolean true))
      createStandardEnv false false⟩

/-- `subdirPaths` on a list of path expressions returns the paths. -/
theorem subdirPaths_map_path (ss : List String) :
    subdirPaths (ss.map Expr.path) = .ok ss := by
  induction ss with
  | nil => rfl
  | cons p rest ih => simp [subdirPaths, ih]

/-- `usersFromEntries` converts every entry: the output has one user per
input entry, each obtained by `extract_str` on the key and `User::from_map`
on the value. -/
theorem usersFromEntries_spec (entries : List (Expr × Expr))
    (us : List (String × User)) (h : usersFromEntries entries = .ok us) :
    us.length = entries.length ∧
    ∀ nm ∈ entries, ∃ s u, nm.1.extract_str = .ok s ∧
      User.from_map nm.2 nm.1 = .ok u ∧ (s, u) ∈ us := by
  induction entries generalizing us with
  | nil =>
    simp only [usersFromEntries] at h
    cases h
    simp
  | cons nm rest ih =>
    simp only [usersFromEntries] at h
    split at h
    · next s hs =>
      split at h
      · next u hu =>
        split at h
        · next us' hus' =>
          cases h
          obtain ⟨hlen, hmem⟩ := ih us' hus'
          refine ⟨by simp [hlen], ?_⟩
          intro p hp
          rcases List.mem_cons.mp hp with rfl | hp'
          · exact ⟨s, u, hs, hu, List.mem_cons_self _ _⟩
          · obtain ⟨s', u', h1, h2, h3⟩ := hmem p hp'
            exact ⟨s', u', h1, h2, List.mem_cons_of_mem _ h3⟩
        · exact Except.noConfusion h
      · exact Except.noConfusion h
    · exact Except.noConfusion h

/-- Claim C1 (amended): `System::from_map` always produces a `System`
whose `users` field is empty — it never reads the `users` entry. The
per-user conversion the claim describes is implemented by
`User::from_big_map` / `User::from_map` (which `from_map` does not call):
each map entry yields one `User` per username; a converted user carries
its username; `homedir` defaults to `/home/<username>` with empty
`subdirs` when the `homedir` key is absent, and a `homedir` map's
`location` and `subdirs` override those defaults. -/
theorem user_conversion_behavior :
    (∀ m s, System.from_map m = .ok s → s.users = []) ∧
    (∀ m uname u, User.from_map m (.symbol uname) = .ok u →
      u.username = some uname) ∧
    (∀ m uname u, m.get_map_value (.symbol "homedir") = none →
      User.from_map m (.symbol uname) = .ok u →
      u.homedir = .path ("/home/" ++ uname) []) ∧
    (∀ m uname u hm loc ss,
      m.get_map_value (.symbol "homedir") = some (.map hm) →
      mapGet hm (.symbol "location") = some (.string loc) →
      mapGet hm (.symbol "subdirs") = some (.list (ss.map Expr.path)) →
      User.from_map m (.symbol uname) = .ok u →
      u.homedir = .path loc ss) ∧
    (∀ entries us, User.from_big_map (.map entries) = .ok us →
      us.length = entries.length ∧
      ∀ nm ∈ entries, ∃ s u, nm.1.extract_str = .ok s ∧
        User.from_map nm.2 nm.1 = .ok u ∧ (s, u) ∈ us) := by
  refine ⟨?_, ?_, ?_, ?_, ?_⟩
  · intro m s h
    simp only [System.from_map] at h
    split at h
    · split at h
      · cases h; rfl
      · exact Except.noConfusion h
    · exact Except.noConfusion h
  · intro m uname u h
    simp only [User.from_map] at h
    repeat' split at h
    all_goals first
      | (cases h; rfl)
      | exact Except.noConfusion h
  · intro m uname u hget h
    simp only [User.from_map, Expr.symbol_from_str, hget] at h
    repeat' split at h
    all_goals first
      | (cases h; rfl)
      | exact Except.noConfusion h
  · intro m uname u hm loc ss hget hloc hsub h
    simp only [User.from_map, Expr.symbol_from_str, hget, hloc, hsub,
      Expr.extract_str, subdirPaths_map_path] at h
    repeat' split at h
    all_goals first
      | (cases h; rfl)
      | exact Except.noConfusion h
  · intro entries us h
    simp only [User.from_big_map] at h
    exact usersFromEntries_spec entries us h

/-- Claim C1 witness: the amended conjuncts applied at the concrete
configuration of the repository's own tests — `from_map` leaves `users`
empty, while `User::from_big_map` on a `users` map with one `sapeint`
entry produces exactly one user, with the defaulted home directory
location and the overriding subdirs. -/
theorem user_conversion_behavior_witness :
    (({ services := [], repositories := [], users := [], system_packages := "" }
      : System)).users = [] ∧
    (({ username := some "sapeint", homedir := .path "/home/sapeint" [],
        dotfiles := none, packages := [] } : User)).username = some "sapeint" ∧
    (({ username := some "sapeint", homedir := .path "/home/sapeint" [],
        dotfiles := none, packages := [] } : User)).homedir =
      .path ("/home/" ++ "sapeint") [] ∧
    (({ username := some "sapeint", homedir := .path "/data/me" ["./library"],
        dotfiles := none, packages := [] } : User)).homedir =
      .path "/data/me" ["./library"] ∧
    ([("sapeint",
       ({ username := some "sapeint",
          homedir := .path "/home/sapeint" ["./library"],
          dotfiles := none, packages := [] } : User))].length =
      [((Expr.symbol "sapeint"),
        Expr.map [(.symbol "homedir",
          .map [(.symbol "subdirs", .list [.path "./library"])])])].length) := by
  refine ⟨?_, ?_, ?_, ?_, ?_⟩
  · exact user_conversion_behavior.1
      (.map [(.symbol "users", .map [(.symbol "alice", .map [])])])
      { services := [], repositories := [], users := [], system_packages := "" }
      rfl
  · exact user_conversion_behavior.2.1 (.map []) "sapeint"
      { username := some "sapeint", homedir := .path "/home/sapeint" [],
        dotfiles := none, packages := [] } rfl
  · exact user_conversion_behavior.2.2.1 (.map []) "sapeint"
      { username := some "sapeint", homedir := .path "/home/sapeint" [],
        dotfiles := none, packages := [] } rfl rfl
  · exact user_conversion_behavior.2.2.2.1
      (.map [(.symbol "homedir",
        .map [(.symbol "location", .string "/data/me"),
              (.symbol "subdirs", .list [.path "./library"])])])
      "sapeint"
      { username := some "sapeint", homedir := .path "/data/me" ["./library"],
        dotfiles := none, packages := [] }
      [(.symbol "location", .string "/data/me"),
       (.symbol "subdirs", .list [.path "./library"])]
      "/data/me" ["./library"] rfl rfl rfl rfl
  · exact (user_conversion_behavior.2.2.2.2
      [((Expr.symbol "sapeint"),
        Expr.map [(.symbol "homedir",
          .map [(.symbol "subdirs", .list [.path "./library"])])])]
      [("sapeint",
        { username := some "sapeint",
          homedir := .path "/home/sapeint" ["./library"],
          dotfiles := none, packages := [] })] rfl).1

end Svsm

namespace Svsm

set_option maxHeartbeats 1000000

theorem parser_goodIdx : ∀ fuel : Nat,
    (∀ st oe st', TokNonneg st.input →
      Parser.parseToken fuel st = .ok (oe, st') →
      st'.input = st.input ∧ ∀ e, oe = some e → GoodIdx IdxOK e) ∧
    (∀ st sym e st', TokNonneg st.input →
      Parser.parseSymbol fuel st sym = .ok (e, st') →
      st'.input = st.input ∧ GoodIdx IdxOK e) ∧
    (∀ st tgt e st', TokNonneg st.input → GoodIdx IdxOK tgt →
      Parser.parseAssignment fuel st tgt = .ok (e, st') →
      st'.input = st.input ∧ GoodIdx IdxOK e) ∧
    (∀ st name args e st', TokNonneg st.input → (∀ a ∈ args, GoodIdx IdxOK a) →
      Parser.parseFnCallLoop fuel st name args = .ok (e, st') →
      st'.input = st.input ∧ GoodIdx IdxOK e) ∧
    (∀ st acc e st', TokNonneg st.input →
      (∀ kv ∈ acc, GoodIdx IdxOK kv.1) → (∀ kv ∈ acc, GoodIdx IdxOK kv.2) →
      Parser.parseMapLoop fuel st acc = .ok (e, st') →
      st'.input = st.input ∧ GoodIdx IdxOK e) ∧
    (∀ st acc e st', TokNonneg st.input → (∀ a ∈ acc, GoodIdx IdxOK a) →
      Parser.parseListLoop fuel st acc = .ok (e, st') →
      st'.input = st.input ∧ GoodIdx IdxOK e) ∧
    (∀ st acc es st', TokNonneg st.input → (∀ a ∈ acc, GoodIdx IdxOK a) →
      Parser.parseParensLoop fuel st acc = .ok (es, st') →
      st'.input = st.input ∧ ∀ e ∈ es, GoodIdx IdxOK e) := by
  intro fuel
  induction fuel with
  | zero =>
    exact ⟨fun st oe st' _ h => RRes.noConfusion h,
      fun st sym e st' _ h => RRes.noConfusion h,
      fun st tgt e st' _ _ h => RRes.noConfusion h,
      fun st name args e st' _ _ h => RRes.noConfusion h,
      fun st acc e st' _ _ _ h => RRes.noConfusion h,
      fun st acc e st' _ _ h => RRes.noConfusion h,
      fun st acc es st' _ _ h => RRes.noConfusion h⟩
  | succ n ih =>
    obtain ⟨ihT, ihS, ihA, ihF, ihM, ihL, ihP⟩ := ih
    refine ⟨?_, ?_, ?_, ?_, ?_, ?_, ?_⟩
    · -- parseToken
      intro st oe st' hTN h
      simp only [Parser.parseToken] at h
      split at h
      · exact RRes.noConfusion h
      · cases h; exact ⟨rfl, fun e he => by cases he; exact GoodIdx.boolean _⟩
      · cases h; exact ⟨rfl, fun e he => by cases he; exact GoodIdx.string _⟩
      · cases h; exact ⟨rfl, fun e he => by cases he; exact GoodIdx.number _⟩
      · -- slash: path
        rcases hp : Parser.parsePath st with m | _ | ⟨e0, st1⟩ <;> rw [hp] at h
        · exact RRes.noConfusion h
        · exact RRes.noConfusion h
        · cases h
          obtain ⟨hi, p, rfl⟩ := Parser.parsePath_spec st _ _ hp
          exact ⟨hi, fun e he => by cases he; exact GoodIdx.path _⟩
      · -- dot: maybe path
        split at h
        · rcases hp : Parser.parsePath st with m | _ | ⟨e0, st1⟩ <;> rw [hp] at h
          · exact RRes.noConfusion h
          · exact RRes.noConfusion h
          · cases h
            obtain ⟨hi, p, rfl⟩ := Parser.parsePath_spec st _ _ hp
            exact ⟨hi, fun e he => by cases he; exact GoodIdx.path _⟩
        · exact RRes.noConfusion h
      · -- openBracket: list
        rcases hr : Parser.parseListLoop n st [] with m | _ | ⟨e0, st1⟩ <;> rw [hr] at h
        · exact RRes.noConfusion h
        · exact RRes.noConfusion h
        · cases h
          obtain ⟨hi, hg⟩ := ihL st _ _ _ hTN
            (fun a ha => absurd ha (List.not_mem_nil a)) hr
          exact ⟨hi, fun e he => by cases he; exact hg⟩
      · -- openBrace: map
        rcases hr : Parser.parseMapLoop n { st with parsing_map := true } [] with
          m | _ | ⟨e0, st1⟩ <;> rw [hr] at h
        · exact RRes.noConfusion h
        · exact RRes.noConfusion h
        · cases h
          obtain ⟨hi, hg⟩ := ihM { st with parsing_map := true } _ _ _ hTN
            (fun kv hkv => absurd hkv (List.not_mem_nil kv))
            (fun kv hkv => absurd hkv (List.not_mem_nil kv)) hr
          exact ⟨hi, fun e he => by cases he; exact hg⟩
      · -- openParen: second of parse_parens
        rcases hr : Parser.parseParensLoop n st.advance [] with m | _ | ⟨exprs, st1⟩ <;>
          rw [hr] at h
        · exact RRes.noConfusion h
        · exact RRes.noConfusion h
        · cases h
          obtain ⟨hi, hg⟩ := ihP st.advance _ _ _ hTN
            (fun a ha => absurd ha (List.not_mem_nil a)) hr
          exact ⟨by rw [hi]; rfl, fun e he => hg e (List.get?_mem he)⟩
      · -- symbol
        rcases hr : Parser.parseSymbol n st _ with m | _ | ⟨e0, st1⟩ <;> rw [hr] at h
        · exact RRes.noConfusion h
        · exact RRes.noConfusion h
        · cases h
          obtain ⟨hi, hg⟩ := ihS st _ _ _ hTN hr
          exact ⟨hi, fun e he => by cases he; exact hg⟩
      · cases h; exact ⟨rfl, fun e he => Option.noConfusion he⟩
      · cases h; exact ⟨rfl, fun e he => Option.noConfusion he⟩
      · cases h; exact ⟨rfl, fun e he => Option.noConfusion he⟩
      · cases h; exact ⟨rfl, fun e he => Option.noConfusion he⟩
      · cases h; exact ⟨rfl, fun e he => Option.noConfusion he⟩
      · -- whitespace: skip and recurse
        obtain ⟨hi, hg⟩ := ihT st.advanceSkipWhitespace _ _
          (by rw [Parser.advanceSkipWhitespace_input]; exact hTN) h
        exact ⟨by rw [hi, Parser.advanceSkipWhitespace_input], hg⟩
      · exact RRes.noConfusion h
      · exact RRes.noConfusion h
    · -- parseSymbol
      intro st0 sym e st' hTN h
      have hTN' : TokNonneg st0.advanceSkipWhitespace.input := by
        rw [Parser.advanceSkipWhitespace_input]; exact hTN
      simp only [Parser.parseSymbol, Parser.parseMapref] at h
      split at h
      · cases h; exact ⟨Parser.advanceSkipWhitespace_input st0, GoodIdx.symbol _⟩
      · cases h; exact ⟨Parser.advanceSkipWhitespace_input st0, GoodIdx.symbol _⟩
      · cases h; exact ⟨Parser.advanceSkipWhitespace_input st0, GoodIdx.symbol _⟩
      · cases h; exact ⟨Parser.advanceSkipWhitespace_input st0, GoodIdx.symbol _⟩
      · cases h; exact ⟨Parser.advanceSkipWhitespace_input st0, GoodIdx.symbol _⟩
      · -- equal
        split at h
        · cases h; exact ⟨Parser.advanceSkipWhitespace_input st0, GoodIdx.symbol _⟩
        · obtain ⟨hi, hg⟩ := ihA st0.advanceSkipWhitespace (.symbol sym) e st'
            hTN' (GoodIdx.symbol sym) h
          exact ⟨by rw [hi, Parser.advanceSkipWhitespace_input], hg⟩
      · -- dot
        split at h
        · -- mapref
          split at h
          · obtain ⟨hi, hg⟩ := ihA (Parser.advanceMany st0.advanceSkipWhitespace 2)
              (.mapRef (.symbol sym) (.symbol _)) e st'
              (by rw [Parser.advanceMany_input, Parser.advanceSkipWhitespace_input]
                  exact hTN)
              (GoodIdx.mapRef (GoodIdx.symbol _) (GoodIdx.symbol _)) h
            exact ⟨by rw [hi, Parser.advanceMany_input,
              Parser.advanceSkipWhitespace_input], hg⟩
          · cases h
            exact ⟨by rw [Parser.advanceMany_input, Parser.advanceSkipWhitespace_input],
              GoodIdx.mapRef (GoodIdx.symbol _) (GoodIdx.symbol _)⟩
        · exact RRes.noConfusion h
        · -- slash: reparse as fncall
          obtain ⟨hi, hg⟩ := ihF st0.advanceSkipWhitespace.posDec sym [] e st'
            hTN' (fun a ha => absurd ha (List.not_mem_nil a)) h
          exact ⟨by rw [hi]; exact Parser.advanceSkipWhitespace_input st0, hg⟩
        all_goals exact RRes.noConfusion h
      · -- openBracket
        split at h
        · split at h
          · -- number index
            next i hpk =>
            split at h
            · rcases hlr : Parser.parseListref st0.advanceSkipWhitespace sym i with
                m | _ | ⟨lr, st1⟩ <;> rw [hlr] at h
              · exact RRes.noConfusion h
              · exact RRes.noConfusion h
              · obtain ⟨rfl, hfr, hi1⟩ := Parser.parseListref_spec _ _ _ _ _ hlr
                have hnn : 0 ≤ i := by
                  have hmem : Token.number i ∈ st0.advanceSkipWhitespace.input :=
                    Parser.lookaheadTokens_mem _ 1 _ hpk (by simp)
                  rw [Parser.advanceSkipWhitespace_input] at hmem
                  exact hTN i hmem
                have hP : IdxOK ⟨i⟩ := ⟨hfr, hnn⟩
                dsimp only at h
                split at h
                · obtain ⟨hi2, hg⟩ := ihA st1.advanceSkipWhitespace
                    (.listRef (.symbol sym) ⟨i⟩) e st'
                    (by rw [Parser.advanceSkipWhitespace_input, hi1,
                        Parser.advanceSkipWhitespace_input]
                        exact hTN)
                    (GoodIdx.listRef (GoodIdx.symbol _) hP) h
                  refine ⟨?_, hg⟩
                  rw [hi2, Parser.advanceSkipWhitespace_input, hi1,
                    Parser.advanceSkipWhitespace_input]
                · cases h
                  exact ⟨by rw [hi1, Parser.advanceSkipWhitespace_input],
                    GoodIdx.listRef (GoodIdx.symbol _) hP⟩
            · split at h
              · exact RRes.noConfusion h
              · exact RRes.noConfusion h
          · -- closeBracket: reparse as fncall
            obtain ⟨hi, hg⟩ := ihF st0.advanceSkipWhitespace.posDec sym [] e st'
              hTN' (fun a ha => absurd ha (List.not_mem_nil a)) h
            exact ⟨by rw [hi]; exact Parser.advanceSkipWhitespace_input st0, hg⟩
          all_goals (split at h <;> exact RRes.noConfusion h)
        · obtain ⟨hi, hg⟩ := ihF st0.advanceSkipWhitespace.posDec sym [] e st'
            hTN' (fun a ha => absurd ha (List.not_mem_nil a)) h
          exact ⟨by rw [hi]; exact Parser.advanceSkipWhitespace_input st0, hg⟩
      all_goals
        obtain ⟨hi, hg⟩ := ihF st0.advanceSkipWhitespace.posDec sym [] e st'
          hTN' (fun a ha => absurd ha (List.not_mem_nil a)) h
        exact ⟨by rw [hi]; exact Parser.advanceSkipWhitespace_input st0, hg⟩
    · -- parseAssignment
      intro st tgt e st' hTN htgt h
      have hTN' : TokNonneg st.advanceSkipWhitespace.input := by
        rw [Parser.advanceSkipWhitespace_input]; exact hTN
      simp only [Parser.parseAssignment] at h
      rcases hr : Parser.parseToken n st.advanceSkipWhitespace with m | _ | ⟨oe, st2⟩ <;>
        rw [hr] at h
      · exact RRes.noConfusion h
      · exact RRes.noConfusion h
      · rcases oe with _ | v
        · exact RRes.noConfusion h
        · cases h
          obtain ⟨hi, hg⟩ := ihT _ _ _ hTN' hr
          refine ⟨by rw [hi, Parser.advanceSkipWhitespace_input], ?_⟩
          exact GoodIdx.varDecl htgt (hg v rfl)
    · -- parseFnCallLoop
      intro st name args e st' hTN hargs h
      simp only [Parser.parseFnCallLoop] at h
      split at h
      · split at h
        · exact RRes.noConfusion h
        · cases h; exact ⟨rfl, GoodIdx.fnCall hargs⟩
        · cases h; exact ⟨rfl, GoodIdx.fnCall hargs⟩
        · cases h; exact ⟨rfl, GoodIdx.fnCall hargs⟩
        · cases h; exact ⟨rfl, GoodIdx.fnCall hargs⟩
        · cases h; exact ⟨rfl, GoodIdx.fnCall hargs⟩
        · cases h; exact ⟨rfl, GoodIdx.fnCall hargs⟩
        · -- equal: args ++ [Symbol "="]
          have hargs2 : ∀ a ∈ args ++ [Expr.symbol "="], GoodIdx IdxOK a := by
            intro a ha
            rcases List.mem_append.mp ha with h' | h'
            · exact hargs a h'
            · rw [List.mem_singleton.mp h']
              exact GoodIdx.symbol _
          exact ihF st.advance _ _ _ _ hTN hargs2 h
        · exact ihF st.advance _ _ _ _ hTN hargs h
        · -- openParen: splice parse_parens
          rcases hr : Parser.parseParensLoop n st.advance.advance [] with m | _ | ⟨exprs, st2⟩ <;>
            rw [hr] at h
          · exact RRes.noConfusion h
          · exact RRes.noConfusion h
          · obtain ⟨hi, hg⟩ := ihP st.advance.advance _ _ _ hTN
              (by intro a ha; exact absurd ha (List.not_mem_nil a)) hr
            have hTN2 : TokNonneg st2.input := by rw [hi]; exact hTN
            have hargs2 : ∀ a ∈ args ++ exprs, GoodIdx IdxOK a := by
              intro a ha
              rcases List.mem_append.mp ha with h' | h'
              · exact hargs a h'
              · exact hg a h'
            obtain ⟨hi2, hg2⟩ := ihF st2 _ _ _ _ hTN2 hargs2 h
            exact ⟨by rw [hi2, hi]; rfl, hg2⟩
        · -- default: parse_token
          rcases hr : Parser.parseToken n st.advance with m | _ | ⟨oe, st2⟩ <;>
            rw [hr] at h
          · exact RRes.noConfusion h
          · exact RRes.noConfusion h
          · obtain ⟨hi, hg⟩ := ihT st.advance _ _ hTN hr
            have hTN2 : TokNonneg st2.input := by rw [hi]; exact hTN
            rcases oe with _ | e1
            · obtain ⟨hi2, hg2⟩ := ihF st2 _ _ _ _ hTN2 hargs h
              exact ⟨by rw [hi2, hi]; rfl, hg2⟩
            · have hargs2 : ∀ a ∈ args ++ [e1], GoodIdx IdxOK a := by
                intro a ha
                rcases List.mem_append.mp ha with h' | h'
                · exact hargs a h'
                · rw [List.mem_singleton.mp h']
                  exact hg e1 rfl
              obtain ⟨hi2, hg2⟩ := ihF st2 _ _ _ _ hTN2 hargs2 h
              exact ⟨by rw [hi2, hi]; rfl, hg2⟩
      · cases h
        exact ⟨rfl, GoodIdx.fnCall hargs⟩
    · -- parseMapLoop
      intro st acc e st' hTN hacc1 hacc2 h
      simp only [Parser.parseMapLoop] at h
      split at h
      · split at h
        · cases h; exact ⟨rfl, GoodIdx.map hacc1 hacc2⟩
        · exact ihM st.advance _ _ _ hTN hacc1 hacc2 h
        · exact ihM st.advance _ _ _ hTN hacc1 hacc2 h
        · exact ihM st.advance _ _ _ hTN hacc1 hacc2 h
        · cases h; exact ⟨rfl, GoodIdx.map hacc1 hacc2⟩
        · -- symbol key
          next sym hsym =>
          split at h
          · rcases hr : Parser.parseToken n
                st.advance.advanceSkipWhitespace.advanceSkipWhitespace with
              m | _ | ⟨oe, st2⟩ <;> rw [hr] at h
            · exact RRes.noConfusion h
            · exact RRes.noConfusion h
            · have hTNr : TokNonneg
                  st.advance.advanceSkipWhitespace.advanceSkipWhitespace.input := by
                rw [Parser.advanceSkipWhitespace_input,
                  Parser.advanceSkipWhitespace_input]
                exact hTN
              obtain ⟨hi, hg⟩ := ihT _ _ _ hTNr hr
              have hTN2 : TokNonneg st2.input := by
                rw [hi, Parser.advanceSkipWhitespace_input,
                  Parser.advanceSkipWhitespace_input]
                exact hTN
              rcases oe with _ | t
              · obtain ⟨hi2, hg2⟩ := ihM st2 _ _ _ hTN2 hacc1 hacc2 h
                refine ⟨?_, hg2⟩
                rw [hi2, hi, Parser.advanceSkipWhitespace_input,
                  Parser.advanceSkipWhitespace_input]
                rfl
              · dsimp only at h
                split at h
                · split at h <;> exact RRes.noConfusion h
                · have hins := mapInsert_goodIdx acc (.symbol sym) t
                    (fun kv hkv => ⟨hacc1 kv hkv, hacc2 kv hkv⟩)
                    (GoodIdx.symbol _) (hg t rfl)
                  obtain ⟨hi2, hg2⟩ := ihM st2 _ _ _ hTN2
                    (fun kv hkv => (hins kv hkv).1)
                    (fun kv hkv => (hins kv hkv).2) h
                  refine ⟨?_, hg2⟩
                  rw [hi2, hi, Parser.advanceSkipWhitespace_input,
                    Parser.advanceSkipWhitespace_input]
                  rfl
          · exact RRes.noConfusion h
        · exact RRes.noConfusion h
      · cases h
        exact ⟨rfl, GoodIdx.map hacc1 hacc2⟩
    · -- parseListLoop
      intro st acc e st' hTN hacc h
      simp only [Parser.parseListLoop] at h
      split at h
      · split at h
        · cases h
          exact ⟨rfl, GoodIdx.list hacc⟩
        · exact ihL st.advance _ _ _ hTN hacc h
        · exact ihL st.advance _ _ _ hTN hacc h
        · rcases hr : Parser.parseToken n st.advance with m | _ | ⟨oe, st2⟩ <;>
            rw [hr] at h
          · exact RRes.noConfusion h
          · exact RRes.noConfusion h
          · rcases oe with _ | e1
            · exact RRes.noConfusion h
            · obtain ⟨hi, hg⟩ := ihT st.advance _ _ hTN hr
              have hTN2 : TokNonneg st2.input := by rw [hi]; exact hTN
              have hacc2 : ∀ a ∈ acc ++ [e1], GoodIdx IdxOK a := by
                intro a ha
                rcases List.mem_append.mp ha with h' | h'
                · exact hacc a h'
                · rw [List.mem_singleton.mp h']
                  exact hg e1 rfl
              obtain ⟨hi2, hg2⟩ := ihL st2 _ _ _ hTN2 hacc2 h
              exact ⟨by rw [hi2, hi]; rfl, hg2⟩
      · cases h
        exact ⟨rfl, GoodIdx.list hacc⟩
    · -- parseParensLoop
      intro st acc es st' hTN hacc h
      simp only [Parser.parseParensLoop] at h
      split at h
      · split at h
        · cases h
          exact ⟨rfl, hacc⟩
        · rcases hr : Parser.parseToken n st with m | _ | ⟨oe, st2⟩ <;>
            rw [hr] at h
          · exact RRes.noConfusion h
          · exact RRes.noConfusion h
          · obtain ⟨hi, hg⟩ := ihT st _ _ hTN hr
            have hTN2 : TokNonneg st2.input := by rw [hi]; exact hTN
            rcases oe with _ | e1
            · obtain ⟨hi2, hg2⟩ := ihP st2 _ _ _ hTN2 hacc h
              exact ⟨by rw [hi2, hi], hg2⟩
            · have hacc2 : ∀ a ∈ acc ++ [e1], GoodIdx IdxOK a := by
                intro a ha
                rcases List.mem_append.mp ha with h' | h'
                · exact hacc a h'
                · rw [List.mem_singleton.mp h']
                  exact hg e1 rfl
              obtain ⟨hi2, hg2⟩ := ihP st2 _ _ _ hTN2 hacc2 h
              exact ⟨by rw [hi2, hi], hg2⟩
      · cases h
        exact ⟨rfl, hacc⟩

/-- The `parse_input` loop preserves the index invariant: every expression it
accumulates comes from `parseToken`, hence satisfies `GoodIdx IdxOK`. -/
theorem parseInputLoop_goodIdx : ∀ fuel st acc es st1,
    TokNonneg st.input → (∀ a ∈ acc, GoodIdx IdxOK a) →
    Parser.parseInputLoop fuel st acc = .ok (es, st1) →
    ∀ e ∈ es, GoodIdx IdxOK e := by
  intro fuel
  induction fuel with
  | zero => intro st acc es st1 _ _ h; exact RRes.noConfusion h
  | succ n ih =>
    intro st acc es st1 hTN hacc h
    simp only [Parser.parseInputLoop] at h
    split at h
    · rcases hr : Parser.parseToken n st with m | _ | ⟨oe, st2⟩ <;> rw [hr] at h
      · exact RRes.noConfusion h
      · exact RRes.noConfusion h
      · obtain ⟨hi, hg⟩ := (parser_goodIdx n).1 st oe st2 hTN hr
        rcases oe with _ | e
        · exact ih st2.advance acc es st1 (by rw [show st2.advance.input = st2.input from rfl, hi]; exact hTN) hacc h
        · refine ih st2 (acc ++ [e]) es st1 (by rw [hi]; exact hTN) ?_ h
          intro a ha
          rcases List.mem_append.1 ha with h1 | h2
          · exact hacc a h1
          · rw [List.mem_singleton.1 h2]; exact hg e rfl
    · cases h; exact hacc

/-- **C8.** Parsing `c[1.5]` is the fatal parse error "Can not index a list by
a non-integer number!", and every expression `parse_input` produces (from any
token stream whose number tokens are non-negative, as the lexer emits)
satisfies `GoodIdx IdxOK`: every `ListRef` in it carries an index with
fractional part exactly zero and non-negative value. -/
theorem parser_listref_index_integral :
    Lexer.tokenizeInput (Lexer.fromString "c[1.5]") =
      .ok [.symbol "c", .openBracket, .number (mkRat 3 2), .closeBracket, .eof] ∧
    Parser.parseInput 100 (Parser.fromTokenList
      [.symbol "c", .openBracket, .number (mkRat 3 2), .closeBracket, .eof]) =
      .fatal "Can not index a list by a non-integer number! Number: 1.5" ∧
    ∀ fuel ts es, TokNonneg ts →
      Parser.parseInput fuel (Parser.fromTokenList ts) = .ok es →
      ∀ e ∈ es, GoodIdx IdxOK e := by
  refine ⟨rfl, rfl, ?_⟩
  intro fuel ts es hTN h
  unfold Parser.parseInput at h
  rcases hr : Parser.parseInputLoop fuel (Parser.fromTokenList ts) [] with m | _ | ⟨es0, st1⟩ <;>
    rw [hr] at h
  · exact RRes.noConfusion h
  · exact RRes.noConfusion h
  · dsimp only at h
    cases h
    exact parseInputLoop_goodIdx fuel (Parser.fromTokenList ts) [] es st1 hTN
      (fun a ha => absurd ha (List.not_mem_nil a)) hr

/-- Witness for C8: the tokens of `c[1]` parse successfully, and the resulting
`ListRef` satisfies the index invariant established by the theorem. -/
theorem parser_listref_index_integral_witness :
    GoodIdx IdxOK (Expr.listRef (.symbol "c") ⟨1⟩) :=
  parser_listref_index_integral.2.2 100
    [.symbol "c", .openBracket, .number 1, .closeBracket, .eof]
    [Expr.listRef (.symbol "c") ⟨1⟩]
    (by intro q hq
        simp only [List.mem_cons, List.not_mem_nil, or_false] at hq
        rcases hq with h | h | h | h | h <;> first
          | exact Token.noConfusion h
          | (cases h; exact zero_le_one))
    (by rfl) _ (by simp)

end Svsm

